import Mathlib

/-!
Shallow embedding of the AES core of the crypto-algo-rs repository
(src/aes): Galois-field arithmetic, the AES-128 key schedule, the block
round pipeline, PKCS#7 padding, and the CBC chaining mode, together with
proofs and refutations of the specified properties.

Bytes are modelled as `Nat` with explicit reduction modulo 256 where the
Rust `u8` arithmetic wraps.  Fixed-size arrays `[u8; 4]` and `[[u8; 4]; 4]`
are modelled as four-field structures, indexed loops over them written
out element-wise.
-/

set_option maxRecDepth 4000

namespace CryptoAlgoRs

/-- A 4-byte word, the model of the Rust type `[u8; 4]`: four byte
fields in order. -/
structure Word where
  b0 : Nat
  b1 : Nat
  b2 : Nat
  b3 : Nat
deriving DecidableEq

/-- A 4x4 byte matrix, the model of the Rust type `[[u8; 4]; 4]`: four
words in order, `mk` holding the Rust rows `state[0]` to `state[3]` (the
columns of the AES state). -/
structure Mat where
  m0 : Word
  m1 : Word
  m2 : Word
  m3 : Word
deriving DecidableEq

/-- Modelled from the spec: the fixed 256-entry forward AES S-box
(`AES_S_BOX` from the `constants` module, which is declared by
`src/aes/src/lib.rs` but whose file is not part of the sources given);
the standard FIPS-197 table, which reproduces every S-box value asserted
by the tests in `key_schedule.rs`, `lib.rs` and `aes_ops.rs`. -/
def AES_S_BOX : List Nat := [
  99, 124, 119, 123, 242, 107, 111, 197, 48, 1, 103, 43, 254, 215, 171, 118,
  202, 130, 201, 125, 250, 89, 71, 240, 173, 212, 162, 175, 156, 164, 114, 192,
  183, 253, 147, 38, 54, 63, 247, 204, 52, 165, 229, 241, 113, 216, 49, 21,
  4, 199, 35, 195, 24, 150, 5, 154, 7, 18, 128, 226, 235, 39, 178, 117,
  9, 131, 44, 26, 27, 110, 90, 160, 82, 59, 214, 179, 41, 227, 47, 132,
  83, 209, 0, 237, 32, 252, 177, 91, 106, 203, 190, 57, 74, 76, 88, 207,
  208, 239, 170, 251, 67, 77, 51, 133, 69, 249, 2, 127, 80, 60, 159, 168,
  81, 163, 64, 143, 146, 157, 56, 245, 188, 182, 218, 33, 16, 255, 243, 210,
  205, 12, 19, 236, 95, 151, 68, 23, 196, 167, 126, 61, 100, 93, 25, 115,
  96, 129, 79, 220, 34, 42, 144, 136, 70, 238, 184, 20, 222, 94, 11, 219,
  224, 50, 58, 10, 73, 6, 36, 92, 194, 211, 172, 98, 145, 149, 228, 121,
  231, 200, 55, 109, 141, 213, 78, 169, 108, 86, 244, 234, 101, 122, 174, 8,
  186, 120, 37, 46, 28, 166, 180, 198, 232, 221, 116, 31, 75, 189, 139, 138,
  112, 62, 181, 102, 72, 3, 246, 14, 97, 53, 87, 185, 134, 193, 29, 158,
  225, 248, 152, 17, 105, 217, 142, 148, 155, 30, 135, 233, 206, 85, 40, 223,
  140, 161, 137, 13, 191, 230, 66, 104, 65, 153, 45, 15, 176, 84, 187, 22]

/-- Modelled from the spec: the fixed 256-entry inverse AES S-box
(`AES_INVERSE_S_BOX` from the missing `constants` module); the standard
FIPS-197 inverse table. -/
def AES_INVERSE_S_BOX : List Nat := [
  82, 9, 106, 213, 48, 54, 165, 56, 191, 64, 163, 158, 129, 243, 215, 251,
  124, 227, 57, 130, 155, 47, 255, 135, 52, 142, 67, 68, 196, 222, 233, 203,
  84, 123, 148, 50, 166, 194, 35, 61, 238, 76, 149, 11, 66, 250, 195, 78,
  8, 46, 161, 102, 40, 217, 36, 178, 118, 91, 162, 73, 109, 139, 209, 37,
  114, 248, 246, 100, 134, 104, 152, 22, 212, 164, 92, 204, 93, 101, 182, 146,
  108, 112, 72, 80, 253, 237, 185, 218, 94, 21, 70, 87, 167, 141, 157, 132,
  144, 216, 171, 0, 140, 188, 211, 10, 247, 228, 88, 5, 184, 179, 69, 6,
  208, 44, 30, 143, 202, 63, 15, 2, 193, 175, 189, 3, 1, 19, 138, 107,
  58, 145, 17, 65, 79, 103, 220, 234, 151, 242, 207, 206, 240, 180, 230, 115,
  150, 172, 116, 34, 231, 173, 53, 133, 226, 249, 55, 232, 28, 117, 223, 110,
  71, 241, 26, 113, 29, 41, 197, 137, 111, 183, 98, 14, 170, 24, 190, 27,
  252, 86, 62, 75, 198, 210, 121, 32, 154, 219, 192, 254, 120, 205, 90, 244,
  31, 221, 168, 51, 136, 7, 199, 49, 177, 18, 16, 89, 39, 128, 236, 95,
  96, 81, 127, 169, 25, 181, 74, 13, 45, 229, 122, 159, 147, 201, 156, 239,
  160, 224, 59, 77, 174, 42, 245, 176, 200, 235, 187, 60, 131, 83, 153, 97,
  23, 43, 4, 126, 186, 119, 214, 38, 225, 105, 20, 99, 85, 33, 12, 125]


/-- Modelled from the spec: the fixed MixColumns matrix
(`TRANSFORMATION_MATRIX` from the `constants` module, which is declared
by `src/aes/src/lib.rs` but whose file is not part of the sources
given): the circulant matrix of the row `{2,3,1,1}` named in spec
section 4.1. -/
def TRANSFORMATION_MATRIX : Mat :=
  ⟨⟨2, 3, 1, 1⟩, ⟨1, 2, 3, 1⟩, ⟨1, 1, 2, 3⟩, ⟨3, 1, 1, 2⟩⟩

/-- Modelled from the spec: the fixed InvMixColumns matrix
(`INVERSE_TRANSFORMATION_MATRIX` from the missing `constants` module):
the circulant matrix of the row `{14,11,13,9}` named in spec section
4.1. -/
def INVERSE_TRANSFORMATION_MATRIX : Mat :=
  ⟨⟨14, 11, 13, 9⟩, ⟨9, 14, 11, 13⟩, ⟨13, 9, 14, 11⟩, ⟨11, 13, 9, 14⟩⟩

/-- Modelled from the spec: the ten round constants
(`ROUND_CONSTANT_128` from the missing `constants` module): spec
section 4.2, rc_1 = 1 and each later constant the double of the
previous one in GF(2^8). -/
def ROUND_CONSTANT_128 : List Nat := [1, 2, 4, 8, 16, 32, 64, 128, 27, 54]

/-- One iteration of the `for` loop of `galois_mul` in
`src/aes/src/util.rs` acting on `a`: shift left by one with `u8`
wraparound, then reduce by the polynomial 0x1B if the high bit had been
set. -/
def gmulStep (a : Nat) : Nat :=
  let a2 := (a * 2) % 256
  cond (a &&& 0x80 != 0) (a2 ^^^ 0x1B) a2

/-- The loop of `galois_mul` in `src/aes/src/util.rs`: `n` remaining
iterations over the current `a`, `b` and accumulator `p`. -/
def gmulAux : Nat → Nat → Nat → Nat → Nat
  | 0, _, _, p => p
  | n + 1, a, b, p =>
      gmulAux n (gmulStep a) (b >>> 1) (cond (b &&& 1 != 0) (p ^^^ a) p)

/-- `galois_mul` from `src/aes/src/util.rs`: GF(2^8) multiplication by
eight shift-and-add iterations. -/
def galois_mul (a b : Nat) : Nat := gmulAux 8 a b 0

/-- `xor_array` from `src/aes/src/util.rs`: element-wise XOR of two
4-byte words (also the inner XOR loop of `generate_new_round`). -/
def xor_array (a b : Word) : Word :=
  ⟨a.b0 ^^^ b.b0, a.b1 ^^^ b.b1, a.b2 ^^^ b.b2, a.b3 ^^^ b.b3⟩

/-- `xor_matrices` from `src/aes/src/util.rs`: element-wise XOR of two
4x4 state matrices. -/
def xor_matrices (a b : Mat) : Mat :=
  ⟨xor_array a.m0 b.m0, xor_array a.m1 b.m1, xor_array a.m2 b.m2, xor_array a.m3 b.m3⟩

/-- `gen_matrix` from `src/aes/src/util.rs`: a 4x4 matrix from 16 bytes,
entry `(i, j)` holding byte `4 * i + j`. -/
def gen_matrix (bytes : List Nat) : Mat :=
  ⟨⟨bytes.getD 0 0, bytes.getD 1 0, bytes.getD 2 0, bytes.getD 3 0⟩,
   ⟨bytes.getD 4 0, bytes.getD 5 0, bytes.getD 6 0, bytes.getD 7 0⟩,
   ⟨bytes.getD 8 0, bytes.getD 9 0, bytes.getD 10 0, bytes.getD 11 0⟩,
   ⟨bytes.getD 12 0, bytes.getD 13 0, bytes.getD 14 0, bytes.getD 15 0⟩⟩

/-- `rotate_left` from `src/aes/src/util.rs`: cyclic left rotation of a
4-byte word by `n mod 4` positions. -/
def rotate_left (w : Word) (n : Nat) : Word :=
  match n % 4 with
  | 0 => w
  | 1 => ⟨w.b1, w.b2, w.b3, w.b0⟩
  | 2 => ⟨w.b2, w.b3, w.b0, w.b1⟩
  | _ => ⟨w.b3, w.b0, w.b1, w.b2⟩

/-- The error enum `AesError` of `src/aes/src/error.rs`.  The variant
`InvalidCipherText` is modelled from the spec (section 7): it is
returned by `CbcEncryptor::decrypt` in `block_modes.rs` but the copy of
`error.rs` in the sources predates it. -/
inductive AesError where
  | InvalidKeySize (len : Nat)
  | InvalidBitsSize (len : Nat)
  | KeyMatrixConversionError
  | IVGenerationError
  | FailedToParseSliceToMatrix (msg : String)
  | InvalidCipherText
deriving DecidableEq

/-- Modelled from the spec (sections 4.5 and 7): the typed padding
failures.  `PkcsPadding::strip_output` in `src/aes/src/padding.rs`
signals these conditions by distinct runtime aborts with fixed
messages; the spec names them as typed errors, and this embedding maps
each abort to the corresponding constructor. -/
inductive PaddingError where
  | InvalidSize
  | InvalidPaddingSize
  | InvalidPaddingBytes
  | EmptyBuffer
deriving DecidableEq

/-- `PkcsPadding::pad_input` from `src/aes/src/padding.rs`: append
`16 - len mod 16` bytes, each equal to that count. -/
def pad_input (buf : List Nat) : List Nat :=
  let pad_size := 16 - buf.length % 16
  buf ++ List.replicate pad_size pad_size

/-- `PkcsPadding::strip_output` from `src/aes/src/padding.rs`: validate
and remove the PKCS#7 padding.  The Rust function mutates the buffer
and aborts on violations; the embedding returns the stripped buffer or
the typed error for the corresponding abort. -/
def strip_output (buf : List Nat) : Except PaddingError (List Nat) :=
  if buf.length % 16 ≠ 0 then
    .error .InvalidSize
  else
    match buf.getLast? with
    | none => .error .EmptyBuffer
    | some pad_size =>
        if pad_size > 16 ∨ pad_size = 0 then
          .error .InvalidPaddingSize
        else if buf.drop (buf.length - pad_size) = List.replicate pad_size pad_size then
          .ok (buf.take (buf.length - pad_size))
        else
          .error .InvalidPaddingBytes

/-- A byte lookup through a 256-entry table, the model of the Rust
indexing `table[b as usize]`. -/
def sboxByte (table : List Nat) (b : Nat) : Nat := table.getD b 0

/-- `KeySchedule::g_function` from `src/aes/src/key_schedule.rs`: rotate
left by one byte, substitute every byte through the forward S-box, XOR
the round constant into the first byte. -/
def g_function (word : Word) (rc : Nat) : Word :=
  let r := rotate_left word 1
  ⟨sboxByte AES_S_BOX r.b0 ^^^ rc, sboxByte AES_S_BOX r.b1,
    sboxByte AES_S_BOX r.b2, sboxByte AES_S_BOX r.b3⟩

/-- `KeySchedule::generate_new_round` from `src/aes/src/key_schedule.rs`:
the next four key words from the previous four, by the progressive XOR
of the g-function output through the columns. -/
def generate_new_round (key_matrix : Mat) (rc : Nat) : Mat :=
  let w0 := xor_array (g_function key_matrix.m3 rc) key_matrix.m0
  let w1 := xor_array w0 key_matrix.m1
  let w2 := xor_array w1 key_matrix.m2
  let w3 := xor_array w2 key_matrix.m3
  ⟨w0, w1, w2, w3⟩

/-- A 4-byte word from the first four entries of a list, padded with
zeros: the model of the chunk-to-array copy in `key_expansion`. -/
def mkWord (l : List Nat) : Word := ⟨l.getD 0 0, l.getD 1 0, l.getD 2 0, l.getD 3 0⟩

/-- The `pk.chunks(4)` loop of `KeySchedule::key_expansion`: the key
bytes split into 4-byte words, a final short chunk zero-padded. -/
def chunkWords : List Nat → List Word
  | [] => []
  | [a] => [mkWord [a]]
  | [a, b] => [mkWord [a, b]]
  | [a, b, c] => [mkWord [a, b, c]]
  | a :: b :: c :: d :: rest => mkWord [a, b, c, d] :: chunkWords rest

/-- The round loop of `KeySchedule::key_expansion`: `n` remaining
rounds, `round` the current index into `ROUND_CONSTANT_128`.  Each
round takes the last four words, derives four new words with
`generate_new_round`, and appends them; a slice of any other shape is
the early return with `KeyMatrixConversionError`. -/
def key_expansion_loop : Nat → Nat → List Word → Except AesError (List Word)
  | 0, _, words => .ok words
  | n + 1, round, words =>
      match words.drop (words.length - 4) with
      | [r0, r1, r2, r3] =>
          let nm := generate_new_round ⟨r0, r1, r2, r3⟩ (ROUND_CONSTANT_128.getD round 0)
          key_expansion_loop n (round + 1) (words ++ [nm.m0, nm.m1, nm.m2, nm.m3])
      | _ => .error .KeyMatrixConversionError

/-- `KeySchedule::key_expansion` from `src/aes/src/key_schedule.rs`: the
initial words followed by ten expansion rounds. -/
def key_expansion (pk : List Nat) : Except AesError (List Word) :=
  key_expansion_loop 10 0 (chunkWords pk)

/-- The `KeySchedule` struct of `src/aes/src/key_schedule.rs`. -/
structure KeySchedule where
  keys : List Word
  rounds : Nat
deriving DecidableEq

/-- `KeySchedule::new` from `src/aes/src/key_schedule.rs`: the
`try_into::<[u8; 16]>` succeeds exactly for 16-byte keys and any other
length is the `InvalidKeySize` early return; the subsequent `match` on
the converted length can then only take the 16-byte arm, with 10
rounds. -/
def KeySchedule.new (pk : List Nat) : Except AesError KeySchedule :=
  if pk.length = 16 then
    match key_expansion pk with
    | .ok keys => .ok { keys := keys, rounds := 10 }
    | .error e => .error e
  else
    .error (.InvalidKeySize pk.length)

/-- The all-zero word. -/
def zeroWord : Word := ⟨0, 0, 0, 0⟩

/-- `KeySchedule::round_key` from `src/aes/src/key_schedule.rs`: words
`4 * round` to `4 * round + 3` as a 4x4 matrix.  The Rust slice copy
aborts when the range is out of bounds, which cannot happen for a
schedule built by `KeySchedule::new`; the embedding returns zero words
there. -/
def KeySchedule.round_key (ks : KeySchedule) (round : Nat) : Mat :=
  ⟨ks.keys.getD (round * 4) zeroWord, ks.keys.getD (round * 4 + 1) zeroWord,
    ks.keys.getD (round * 4 + 2) zeroWord, ks.keys.getD (round * 4 + 3) zeroWord⟩

/-- `AesOps::sub_bytes` from `src/aes/src/aes_ops.rs` applied to one
word of the state. -/
def sub_word (s_box : List Nat) (w : Word) : Word :=
  ⟨sboxByte s_box w.b0, sboxByte s_box w.b1, sboxByte s_box w.b2, sboxByte s_box w.b3⟩

/-- `AesOps::sub_bytes` from `src/aes/src/aes_ops.rs`: byte-wise lookup
of every state entry through the given S-box. -/
def sub_bytes (state : Mat) (s_box : List Nat) : Mat :=
  ⟨sub_word s_box state.m0, sub_word s_box state.m1,
    sub_word s_box state.m2, sub_word s_box state.m3⟩

/-- `AesOps::shift_rows` from `src/aes/src/aes_ops.rs`: entry `(j, i)`
of the output is entry `((j + i) mod 4, i)` of the input (row 0
unchanged), written out element-wise. -/
def shift_rows (s : Mat) : Mat :=
  ⟨⟨s.m0.b0, s.m1.b1, s.m2.b2, s.m3.b3⟩,
   ⟨s.m1.b0, s.m2.b1, s.m3.b2, s.m0.b3⟩,
   ⟨s.m2.b0, s.m3.b1, s.m0.b2, s.m1.b3⟩,
   ⟨s.m3.b0, s.m0.b1, s.m1.b2, s.m2.b3⟩⟩

/-- `AesOps::inv_shift_rows` from `src/aes/src/aes_ops.rs`: the three
explicit right rotations, one per row, row 0 unchanged. -/
def inv_shift_rows (s : Mat) : Mat :=
  ⟨⟨s.m0.b0, s.m3.b1, s.m2.b2, s.m1.b3⟩,
   ⟨s.m1.b0, s.m0.b1, s.m3.b2, s.m2.b3⟩,
   ⟨s.m2.b0, s.m1.b1, s.m0.b2, s.m3.b3⟩,
   ⟨s.m3.b0, s.m2.b1, s.m1.b2, s.m0.b3⟩⟩

/-- The inner loop of `AesOps::mix_columns` from
`src/aes/src/aes_ops.rs`: one column transformed by the given matrix
under GF(2^8) arithmetic. -/
def mix_col (col : Word) (tm : Mat) : Word :=
  ⟨galois_mul tm.m0.b0 col.b0 ^^^ galois_mul tm.m0.b1 col.b1 ^^^
      galois_mul tm.m0.b2 col.b2 ^^^ galois_mul tm.m0.b3 col.b3,
   galois_mul tm.m1.b0 col.b0 ^^^ galois_mul tm.m1.b1 col.b1 ^^^
      galois_mul tm.m1.b2 col.b2 ^^^ galois_mul tm.m1.b3 col.b3,
   galois_mul tm.m2.b0 col.b0 ^^^ galois_mul tm.m2.b1 col.b1 ^^^
      galois_mul tm.m2.b2 col.b2 ^^^ galois_mul tm.m2.b3 col.b3,
   galois_mul tm.m3.b0 col.b0 ^^^ galois_mul tm.m3.b1 col.b1 ^^^
      galois_mul tm.m3.b2 col.b2 ^^^ galois_mul tm.m3.b3 col.b3⟩

/-- `AesOps::mix_columns` from `src/aes/src/aes_ops.rs`: every column
transformed by the given matrix. -/
def mix_columns (state : Mat) (transformation_matrix : Mat) : Mat :=
  ⟨mix_col state.m0 transformation_matrix, mix_col state.m1 transformation_matrix,
    mix_col state.m2 transformation_matrix, mix_col state.m3 transformation_matrix⟩

/-- `AesOps::add_round_key` from `src/aes/src/aes_ops.rs`. -/
def add_round_key (state : Mat) (key : Mat) : Mat := xor_matrices state key

/-- The body of the main encryption loop of `AesOps::encrypt`:
SubBytes, ShiftRows, MixColumns, AddRoundKey. -/
def enc_round (keys : KeySchedule) (state : Mat) (round : Nat) : Mat :=
  add_round_key (mix_columns (shift_rows (sub_bytes state AES_S_BOX)) TRANSFORMATION_MATRIX)
    (keys.round_key round)

/-- The body of the main decryption loop of `AesOps::decrypt`:
InvShiftRows, InvSubBytes, AddRoundKey, InvMixColumns. -/
def dec_round (keys : KeySchedule) (state : Mat) (round : Nat) : Mat :=
  mix_columns (add_round_key (sub_bytes (inv_shift_rows state) AES_INVERSE_S_BOX)
      (keys.round_key round))
    INVERSE_TRANSFORMATION_MATRIX

/-- `AesOps::encrypt` from `src/aes/src/aes_ops.rs`: initial
AddRoundKey, main rounds `1` to `rounds - 1`, final round without
MixColumns. -/
def AesOps.encrypt (state : Mat) (keys : KeySchedule) : Mat :=
  let s0 := add_round_key state (keys.round_key 0)
  let sm := (List.range' 1 (keys.rounds - 1)).foldl (enc_round keys) s0
  add_round_key (shift_rows (sub_bytes sm AES_S_BOX)) (keys.round_key keys.rounds)

/-- `AesOps::decrypt` from `src/aes/src/aes_ops.rs`: AddRoundKey with
the last round key, main rounds `rounds - 1` down to `1`, final
InvShiftRows, InvSubBytes, AddRoundKey with round key 0. -/
def AesOps.decrypt (cipher_bytes : Mat) (keys : KeySchedule) : Mat :=
  let s0 := add_round_key cipher_bytes (keys.round_key keys.rounds)
  let sm := (List.range' 1 (keys.rounds - 1)).reverse.foldl (dec_round keys) s0
  add_round_key (sub_bytes (inv_shift_rows sm) AES_INVERSE_S_BOX) (keys.round_key 0)

/-- Modelled from the spec: `chunk_bytes_into_4x4_matrices`, used by
`src/aes/src/block_modes.rs` but defined in a utility module missing
from the sources.  Spec section 4.4 splits the byte sequence into
ordered 16-byte blocks; each block becomes a 4x4 matrix exactly as in
`gen_matrix`, consistent with the flattening in
`CbcEncryptor::decrypt`. -/
def chunk_bytes_into_4x4_matrices : List Nat → List Mat
  | [] => []
  | b0 :: b1 :: b2 :: b3 :: b4 :: b5 :: b6 :: b7 ::
      b8 :: b9 :: b10 :: b11 :: b12 :: b13 :: b14 :: b15 :: rest =>
      gen_matrix [b0, b1, b2, b3, b4, b5, b6, b7, b8, b9, b10, b11, b12, b13, b14, b15] ::
        chunk_bytes_into_4x4_matrices rest
  | l => [gen_matrix l]

/-- The flattening of one state matrix back to its 16 bytes, as in the
final `flat_map` of `CbcEncryptor::decrypt`. -/
def matToBytes (m : Mat) : List Nat :=
  [m.m0.b0, m.m0.b1, m.m0.b2, m.m0.b3,
   m.m1.b0, m.m1.b1, m.m1.b2, m.m1.b3,
   m.m2.b0, m.m2.b1, m.m2.b2, m.m2.b3,
   m.m3.b0, m.m3.b1, m.m3.b2, m.m3.b3]

/-- The all-zero state: the placeholder for the unreachable default of
a `Vec` access that cannot be out of range. -/
def zeroMat : Mat := ⟨zeroWord, zeroWord, zeroWord, zeroWord⟩

/-- `CbcEncryptor::encrypt` from `src/aes/src/block_modes.rs`, with the
IV and key schedule of the encryptor passed explicitly: pad, chunk,
initialise the working state as block 0 XOR IV, then for every block
encrypt the working state, emit it, and XOR it with that same block.
The Rust function always returns `Ok`; the embedding returns the block
list directly. -/
def CbcEncryptor.encrypt (iv : Mat) (keys : KeySchedule) (message : List Nat) : List Mat :=
  let plain_bytes := pad_input message
  let input_blocks := chunk_bytes_into_4x4_matrices plain_bytes
  let init := xor_matrices (input_blocks.getD 0 zeroMat) iv
  (input_blocks.foldl
      (fun acc block =>
        let ws := AesOps.encrypt acc.2 keys
        (acc.1 ++ [ws], xor_matrices ws block))
      (([] : List Mat), init)).1

/-- `CbcEncryptor::decrypt` from `src/aes/src/block_modes.rs`: reject a
length that is not a multiple of 16, otherwise decrypt each block, XOR
it with the previous ciphertext block (initially the IV), and flatten
the decrypted blocks to bytes. -/
def CbcEncryptor.decrypt (iv : Mat) (keys : KeySchedule) (cipher_bytes : List Nat) :
    Except AesError (List Nat) :=
  if cipher_bytes.length % 16 ≠ 0 then
    .error .InvalidCipherText
  else
    let input_blocks := chunk_bytes_into_4x4_matrices cipher_bytes
    let decrypted :=
      (input_blocks.foldl
          (fun acc block =>
            let d := xor_matrices (AesOps.decrypt block keys) acc.2
            (acc.1 ++ [d], block))
          (([] : List Mat), iv)).1
    .ok ((decrypted.map matToBytes).flatten)

/-- The 16-byte key `[0, 1, ..., 15]` used by the tests of the
repository. -/
def key0 : List Nat := [0, 1, 2, 3, 4, 5, 6, 7, 8, 9, 10, 11, 12, 13, 14, 15]

/-- The key schedule built from `key0`. -/
def ks0 : KeySchedule :=
  match KeySchedule.new key0 with
  | .ok ks => ks
  | .error _ => { keys := [], rounds := 0 }

/-- The fixed test IV of `block_modes.rs`. -/
def iv0bytes : List Nat :=
  [102, 71, 120, 83, 87, 100, 53, 57, 65, 89, 100, 105, 81, 88, 90, 83]

/-- The test IV as a state matrix. -/
def iv0 : Mat := gen_matrix iv0bytes

/-- The 16-byte test plaintext of the repository. -/
def input0 : List Nat :=
  [0, 17, 34, 51, 68, 85, 102, 119, 136, 153, 170, 187, 204, 221, 238, 255]

/-- Entry-wise byte bound for a word: every field is an 8-bit value. -/
def WordLt (w : Word) : Prop :=
  w.b0 < 256 ∧ w.b1 < 256 ∧ w.b2 < 256 ∧ w.b3 < 256

/-- Entry-wise byte bound for a state matrix. -/
def MatLt (m : Mat) : Prop :=
  WordLt m.m0 ∧ WordLt m.m1 ∧ WordLt m.m2 ∧ WordLt m.m3

instance (w : Word) : Decidable (WordLt w) := by unfold WordLt; infer_instance

instance (m : Mat) : Decidable (MatLt m) := by unfold MatLt; infer_instance

instance {ε α : Type} [DecidableEq ε] [DecidableEq α] : DecidableEq (Except ε α) := fun x y =>
  match x, y with
  | .ok a, .ok b =>
      if h : a = b then .isTrue (by rw [h]) else .isFalse (fun hh => h (by injection hh))
  | .error e, .error f =>
      if h : e = f then .isTrue (by rw [h]) else .isFalse (fun hh => h (by injection hh))
  | .ok _, .error _ => .isFalse (fun hh => Except.noConfusion hh)
  | .error _, .ok _ => .isFalse (fun hh => Except.noConfusion hh)

/-! ## XOR algebra helpers -/

theorem xor_left_comm (a b c : Nat) : a ^^^ (b ^^^ c) = b ^^^ (a ^^^ c) := by
  rw [← Nat.xor_assoc, Nat.xor_comm a b, Nat.xor_assoc]

theorem xor_cancel_left (a b : Nat) : a ^^^ (a ^^^ b) = b := by
  rw [← Nat.xor_assoc, Nat.xor_self, Nat.zero_xor]

/-- Interchange of two groups of four XOR terms. -/
theorem xor_interchange8 (a0 a1 a2 a3 b0 b1 b2 b3 : Nat) :
    a0 ^^^ b0 ^^^ (a1 ^^^ b1) ^^^ (a2 ^^^ b2) ^^^ (a3 ^^^ b3) =
      a0 ^^^ a1 ^^^ a2 ^^^ a3 ^^^ (b0 ^^^ b1 ^^^ b2 ^^^ b3) := by
  simp only [Nat.xor_assoc]
  simp [Nat.xor_comm, xor_left_comm]

/-- Regrouping of sixteen XOR terms from row-major to column-major. -/
theorem xor_regroup16 (u00 u01 u02 u03 u10 u11 u12 u13
    u20 u21 u22 u23 u30 u31 u32 u33 : Nat) :
    u00 ^^^ u01 ^^^ u02 ^^^ u03 ^^^ (u10 ^^^ u11 ^^^ u12 ^^^ u13) ^^^
        (u20 ^^^ u21 ^^^ u22 ^^^ u23) ^^^ (u30 ^^^ u31 ^^^ u32 ^^^ u33) =
      u00 ^^^ u10 ^^^ u20 ^^^ u30 ^^^ (u01 ^^^ u11 ^^^ u21 ^^^ u31) ^^^
        (u02 ^^^ u12 ^^^ u22 ^^^ u32) ^^^ (u03 ^^^ u13 ^^^ u23 ^^^ u33) := by
  simp only [Nat.xor_assoc]
  simp [Nat.xor_comm, xor_left_comm]

/-! ## Galois multiplication: linearity, commutativity, bounds -/

/-- The accumulator of the `galois_mul` loop factors out by XOR. -/
theorem gmulAux_acc (n : Nat) : ∀ a b p, gmulAux n a b p = p ^^^ gmulAux n a b 0 := by
  induction n with
  | zero => intro a b p; simp [gmulAux]
  | succ n ih =>
      intro a b p
      have e1 : gmulAux (n + 1) a b p
          = gmulAux n (gmulStep a) (b >>> 1) (cond (b &&& 1 != 0) (p ^^^ a) p) := rfl
      have e2 : gmulAux (n + 1) a b 0
          = gmulAux n (gmulStep a) (b >>> 1) (cond (b &&& 1 != 0) (0 ^^^ a) 0) := rfl
      rw [e1, e2, ih, ih (gmulStep a) (b >>> 1) (cond (b &&& 1 != 0) (0 ^^^ a) 0)]
      cases h : b &&& 1 != 0 <;> simp [Nat.xor_assoc]

/-- `galois_mul` of anything with second argument zero is zero. -/
theorem gmulAux_zero_right (n : Nat) : ∀ a, gmulAux n a 0 0 = 0 := by
  induction n with
  | zero => intro a; rfl
  | succ n ih => intro a; show gmulAux n (gmulStep a) (0 >>> 1) _ = 0; simpa using ih (gmulStep a)

/-- `galois_mul` with first argument zero is zero. -/
theorem gmulAux_zero_left (n : Nat) : ∀ b, gmulAux n 0 b 0 = 0 := by
  induction n with
  | zero => intro b; rfl
  | succ n ih =>
      intro b
      show gmulAux n (gmulStep 0) (b >>> 1) (cond (b &&& 1 != 0) (0 ^^^ 0) 0) = 0
      have hs : gmulStep 0 = 0 := rfl
      cases h : b &&& 1 != 0 <;> simp [hs, ih]

/-- The shifted second argument of the loop distributes over XOR. -/
theorem shiftRight_one_xor (b c : Nat) : (b ^^^ c) >>> 1 = b >>> 1 ^^^ c >>> 1 := by
  apply Nat.eq_of_testBit_eq
  intro i
  simp [Nat.testBit_shiftRight, Nat.testBit_xor]

/-- `galois_mul` is XOR-linear in its second argument (the loop only
reads the bits of `b`). -/
theorem gmulAux_linear_right (n : Nat) :
    ∀ a b c, gmulAux n a (b ^^^ c) 0 = gmulAux n a b 0 ^^^ gmulAux n a c 0 := by
  induction n with
  | zero => intro a b c; simp [gmulAux]
  | succ n ih =>
      intro a b c
      have e1 : gmulAux (n + 1) a (b ^^^ c) 0 = gmulAux n (gmulStep a) ((b ^^^ c) >>> 1)
          (cond ((b ^^^ c) &&& 1 != 0) (0 ^^^ a) 0) := rfl
      have e2 : gmulAux (n + 1) a b 0 = gmulAux n (gmulStep a) (b >>> 1)
          (cond (b &&& 1 != 0) (0 ^^^ a) 0) := rfl
      have e3 : gmulAux (n + 1) a c 0 = gmulAux n (gmulStep a) (c >>> 1)
          (cond (c &&& 1 != 0) (0 ^^^ a) 0) := rfl
      rw [e1, e2, e3, shiftRight_one_xor]
      rw [gmulAux_acc n _ _ (cond ((b ^^^ c) &&& 1 != 0) (0 ^^^ a) 0),
        gmulAux_acc n _ _ (cond (b &&& 1 != 0) (0 ^^^ a) 0),
        gmulAux_acc n _ _ (cond (c &&& 1 != 0) (0 ^^^ a) 0)]
      rw [show (b ^^^ c) &&& 1 = (b &&& 1) ^^^ (c &&& 1) from Nat.and_xor_distrib_right]
      rw [Nat.and_one_is_mod b, Nat.and_one_is_mod c]
      rcases Nat.mod_two_eq_zero_or_one b with hb | hb <;>
        rcases Nat.mod_two_eq_zero_or_one c with hc | hc <;>
        simp [hb, hc, ih, Nat.xor_assoc, Nat.xor_comm, xor_left_comm, xor_cancel_left,
          Nat.xor_self, Nat.zero_xor, Nat.xor_zero]

/-- `galois_mul` distributes over XOR in its second argument, with no
restriction on the operands. -/
theorem galois_mul_distrib (a b c : Nat) :
    galois_mul a (b ^^^ c) = galois_mul a b ^^^ galois_mul a c :=
  gmulAux_linear_right 8 a b c

/-- Shifting left by one with `u8` wraparound distributes over XOR. -/
theorem mul2_mod_xor (x y : Nat) :
    ((x ^^^ y) * 2) % 256 = ((x * 2) % 256) ^^^ ((y * 2) % 256) := by
  have key : ∀ u i : Nat, ((u * 2) % 256).testBit i
      = (decide (i < 8) && (decide (1 ≤ i) && u.testBit (i - 1))) := by
    intro u i
    rw [show u * 2 = u <<< 1 from by rw [Nat.shiftLeft_eq, pow_one],
      show (256 : Nat) = 2 ^ 8 from rfl, Nat.testBit_mod_two_pow, Nat.testBit_shiftLeft]
  apply Nat.eq_of_testBit_eq
  intro i
  rw [Nat.testBit_xor (x * 2 % 256) (y * 2 % 256), key x i, key y i, key (x ^^^ y) i,
    Nat.testBit_xor x y]
  cases hx : x.testBit (i - 1) <;> cases hy : y.testBit (i - 1) <;>
    cases hd : decide (i < 8) <;> cases hl : decide (1 ≤ i) <;> simp [hx, hy]

/-- The bit-7 mask as a test on bit 7. -/
theorem and128_eq (u : Nat) : u &&& 128 = cond (u.testBit 7) 128 0 := by
  rw [show (128 : Nat) = 2 ^ 7 from rfl, Nat.and_two_pow]
  cases u.testBit 7 <;> simp

/-- The shift-and-reduce step of `galois_mul` is XOR-linear. -/
theorem gmulStep_linear (x y : Nat) : gmulStep (x ^^^ y) = gmulStep x ^^^ gmulStep y := by
  show cond ((x ^^^ y) &&& 128 != 0) (((x ^^^ y) * 2) % 256 ^^^ 27) (((x ^^^ y) * 2) % 256) =
    cond (x &&& 128 != 0) ((x * 2) % 256 ^^^ 27) ((x * 2) % 256) ^^^
      cond (y &&& 128 != 0) ((y * 2) % 256 ^^^ 27) ((y * 2) % 256)
  rw [and128_eq, and128_eq, and128_eq, mul2_mod_xor,
    show (x ^^^ y).testBit 7 = ((x.testBit 7).xor (y.testBit 7)) by simp [Nat.testBit_xor]]
  cases hx : x.testBit 7 <;> cases hy : y.testBit 7 <;>
    simp [Nat.xor_assoc, Nat.xor_comm, xor_left_comm, xor_cancel_left, Nat.xor_self,
      Nat.xor_zero, Nat.zero_xor]

/-- `galois_mul` is XOR-linear in its first argument. -/
theorem gmulAux_linear_left (n : Nat) :
    ∀ x y b, gmulAux n (x ^^^ y) b 0 = gmulAux n x b 0 ^^^ gmulAux n y b 0 := by
  induction n with
  | zero => intro x y b; simp [gmulAux]
  | succ n ih =>
      intro x y b
      have e1 : gmulAux (n + 1) (x ^^^ y) b 0 = gmulAux n (gmulStep (x ^^^ y)) (b >>> 1)
          (cond (b &&& 1 != 0) (0 ^^^ (x ^^^ y)) 0) := rfl
      have e2 : gmulAux (n + 1) x b 0 = gmulAux n (gmulStep x) (b >>> 1)
          (cond (b &&& 1 != 0) (0 ^^^ x) 0) := rfl
      have e3 : gmulAux (n + 1) y b 0 = gmulAux n (gmulStep y) (b >>> 1)
          (cond (b &&& 1 != 0) (0 ^^^ y) 0) := rfl
      rw [e1, e2, e3, gmulStep_linear,
        gmulAux_acc n _ _ (cond (b &&& 1 != 0) (0 ^^^ (x ^^^ y)) 0),
        gmulAux_acc n _ _ (cond (b &&& 1 != 0) (0 ^^^ x) 0),
        gmulAux_acc n _ _ (cond (b &&& 1 != 0) (0 ^^^ y) 0), ih]
      cases hb : b &&& 1 != 0 <;>
        simp [Nat.xor_assoc, Nat.xor_comm, xor_left_comm, xor_cancel_left, Nat.xor_self,
          Nat.xor_zero, Nat.zero_xor]

/-- `galois_mul` distributes over XOR in its first argument as well. -/
theorem galois_mul_distrib_left (x y b : Nat) :
    galois_mul (x ^^^ y) b = galois_mul x b ^^^ galois_mul y b :=
  gmulAux_linear_left 8 x y b

/-- XOR with a byte below the power of two keeping the high bit intact
is ordinary addition, on the byte range. -/
theorem pow_xor_add : ∀ (n : Fin 8) (r : Fin 256), r.val < 2 ^ n.val →
    2 ^ n.val ^^^ r.val = 2 ^ n.val + r.val := by decide

/-- Two XOR-linear maps that vanish at zero and agree on the powers of
two agree on every byte. -/
theorem linear_byte_ext (f g : Nat → Nat)
    (hf : ∀ u v, f (u ^^^ v) = f u ^^^ f v)
    (hg : ∀ u v, g (u ^^^ v) = g u ^^^ g v)
    (hf0 : f 0 = 0) (hg0 : g 0 = 0)
    (hbasis : ∀ i : Nat, i < 8 → f (2 ^ i) = g (2 ^ i)) :
    ∀ n, n ≤ 8 → ∀ x, x < 2 ^ n → f x = g x := by
  intro n
  induction n with
  | zero =>
      intro _ x hx
      have hx0 : x = 0 := by omega
      rw [hx0, hf0, hg0]
  | succ n ih =>
      intro hn x hx
      rw [pow_succ] at hx
      by_cases hlt : x < 2 ^ n
      · exact ih (by omega) x hlt
      · have hr : x - 2 ^ n < 2 ^ n := by omega
        have hr256 : x - 2 ^ n < 256 := by
          have h8 : 2 ^ n ≤ 2 ^ 8 := Nat.pow_le_pow_right (by norm_num) (by omega)
          have h256 : (2 : Nat) ^ 8 = 256 := by norm_num
          omega
        have hxa : 2 ^ n ^^^ (x - 2 ^ n) = 2 ^ n + (x - 2 ^ n) :=
          pow_xor_add ⟨n, by omega⟩ ⟨x - 2 ^ n, hr256⟩ hr
        have hx2 : x = 2 ^ n ^^^ (x - 2 ^ n) := by omega
        rw [hx2, hf, hg, hbasis n (by omega), ih (by omega) (x - 2 ^ n) hr]

theorem galois_mul_zero_left (b : Nat) : galois_mul 0 b = 0 := gmulAux_zero_left 8 b

theorem galois_mul_zero_right (a : Nat) : galois_mul a 0 = 0 := gmulAux_zero_right 8 a

/-- `galois_mul` commutes on the powers of two. -/
theorem galois_basis_comm : ∀ i j : Fin 8,
    galois_mul (2 ^ i.val) (2 ^ j.val) = galois_mul (2 ^ j.val) (2 ^ i.val) := by decide

/-- `galois_mul` by a power of two commutes with every byte. -/
theorem galois_pow_comm (i : Nat) (hi : i < 8) :
    ∀ b, b < 256 → galois_mul (2 ^ i) b = galois_mul b (2 ^ i) := by
  intro b hb
  exact linear_byte_ext (fun b => galois_mul (2 ^ i) b) (fun b => galois_mul b (2 ^ i))
    (fun u v => galois_mul_distrib (2 ^ i) u v)
    (fun u v => galois_mul_distrib_left u v (2 ^ i))
    (galois_mul_zero_right (2 ^ i)) (galois_mul_zero_left (2 ^ i))
    (fun j hj => galois_basis_comm ⟨i, hi⟩ ⟨j, hj⟩)
    8 (le_refl 8) b hb

/-- `galois_mul` is commutative on bytes. -/
theorem galois_mul_comm_bytes (a b : Nat) (ha : a < 256) (hb : b < 256) :
    galois_mul a b = galois_mul b a :=
  linear_byte_ext (fun x => galois_mul x b) (fun x => galois_mul b x)
    (fun u v => galois_mul_distrib_left u v b)
    (fun u v => galois_mul_distrib b u v)
    (galois_mul_zero_left b) (galois_mul_zero_right b)
    (fun i hi => galois_pow_comm i hi b hb)
    8 (le_refl 8) a ha

/-- XOR keeps the byte range. -/
theorem xor_lt_256 {x y : Nat} (hx : x < 256) (hy : y < 256) : x ^^^ y < 256 :=
  Nat.xor_lt_two_pow (n := 8) hx hy

/-- One `galois_mul` step keeps the byte range, for any input. -/
theorem gmulStep_lt (a : Nat) : gmulStep a < 256 := by
  show cond (a &&& 128 != 0) ((a * 2) % 256 ^^^ 27) ((a * 2) % 256) < 256
  have hm : (a * 2) % 256 < 256 := Nat.mod_lt _ (by norm_num)
  cases a &&& 128 != 0
  · exact hm
  · exact xor_lt_256 hm (by norm_num)

/-- The `galois_mul` loop keeps the byte range when the first operand
is a byte. -/
theorem gmulAux_lt (n : Nat) : ∀ a b p, a < 256 → p < 256 → gmulAux n a b p < 256 := by
  induction n with
  | zero => intro a b p _ hp; exact hp
  | succ n ih =>
      intro a b p ha hp
      show gmulAux n (gmulStep a) (b >>> 1) (cond (b &&& 1 != 0) (p ^^^ a) p) < 256
      apply ih _ _ _ (gmulStep_lt a)
      cases b &&& 1 != 0
      · exact hp
      · exact xor_lt_256 hp ha

/-- `galois_mul` of a byte with anything is a byte. -/
theorem galois_mul_lt (a b : Nat) (ha : a < 256) : galois_mul a b < 256 :=
  gmulAux_lt 8 a b 0 ha (by norm_num)

/-! ## S-box and MixColumns facts -/

/-- The inverse S-box undoes the forward S-box on every byte. -/
theorem sbox_inverse : ∀ b : Fin 256,
    sboxByte AES_INVERSE_S_BOX (sboxByte AES_S_BOX b.val) = b.val := by decide

/-- The forward S-box maps bytes to bytes. -/
theorem sbox_lt : ∀ b : Fin 256, sboxByte AES_S_BOX b.val < 256 := by decide

/-- The inverse S-box maps bytes to bytes. -/
theorem inv_sbox_lt : ∀ b : Fin 256, sboxByte AES_INVERSE_S_BOX b.val < 256 := by decide

/-- A four-term sum of composed Galois products is XOR-linear. -/
theorem quad_linear (c0 c1 c2 c3 d0 d1 d2 d3 u v : Nat) :
    galois_mul c0 (galois_mul d0 (u ^^^ v)) ^^^ galois_mul c1 (galois_mul d1 (u ^^^ v)) ^^^
        galois_mul c2 (galois_mul d2 (u ^^^ v)) ^^^ galois_mul c3 (galois_mul d3 (u ^^^ v)) =
      (galois_mul c0 (galois_mul d0 u) ^^^ galois_mul c1 (galois_mul d1 u) ^^^
          galois_mul c2 (galois_mul d2 u) ^^^ galois_mul c3 (galois_mul d3 u)) ^^^
        (galois_mul c0 (galois_mul d0 v) ^^^ galois_mul c1 (galois_mul d1 v) ^^^
          galois_mul c2 (galois_mul d2 v) ^^^ galois_mul c3 (galois_mul d3 v)) := by
  simp only [galois_mul_distrib]
  exact xor_interchange8 _ _ _ _ _ _ _ _

/-- The product of the MixColumns matrix with its inverse collapses to
the identity on every power-of-two byte (entry-wise, all sixteen
entries of the product). -/
theorem collapse_basis : ∀ m : Fin 8,
    (galois_mul 14 (galois_mul 2 (2 ^ m.val)) ^^^
      galois_mul 11 (galois_mul 1 (2 ^ m.val)) ^^^
      galois_mul 13 (galois_mul 1 (2 ^ m.val)) ^^^
      galois_mul 9 (galois_mul 3 (2 ^ m.val)) = 2 ^ m.val) ∧
    (galois_mul 14 (galois_mul 3 (2 ^ m.val)) ^^^
      galois_mul 11 (galois_mul 2 (2 ^ m.val)) ^^^
      galois_mul 13 (galois_mul 1 (2 ^ m.val)) ^^^
      galois_mul 9 (galois_mul 1 (2 ^ m.val)) = 0) ∧
    (galois_mul 14 (galois_mul 1 (2 ^ m.val)) ^^^
      galois_mul 11 (galois_mul 3 (2 ^ m.val)) ^^^
      galois_mul 13 (galois_mul 2 (2 ^ m.val)) ^^^
      galois_mul 9 (galois_mul 1 (2 ^ m.val)) = 0) ∧
    (galois_mul 14 (galois_mul 1 (2 ^ m.val)) ^^^
      galois_mul 11 (galois_mul 1 (2 ^ m.val)) ^^^
      galois_mul 13 (galois_mul 3 (2 ^ m.val)) ^^^
      galois_mul 9 (galois_mul 2 (2 ^ m.val)) = 0) ∧
    (galois_mul 9 (galois_mul 2 (2 ^ m.val)) ^^^
      galois_mul 14 (galois_mul 1 (2 ^ m.val)) ^^^
      galois_mul 11 (galois_mul 1 (2 ^ m.val)) ^^^
      galois_mul 13 (galois_mul 3 (2 ^ m.val)) = 0) ∧
    (galois_mul 9 (galois_mul 3 (2 ^ m.val)) ^^^
      galois_mul 14 (galois_mul 2 (2 ^ m.val)) ^^^
      galois_mul 11 (galois_mul 1 (2 ^ m.val)) ^^^
      galois_mul 13 (galois_mul 1 (2 ^ m.val)) = 2 ^ m.val) ∧
    (galois_mul 9 (galois_mul 1 (2 ^ m.val)) ^^^
      galois_mul 14 (galois_mul 3 (2 ^ m.val)) ^^^
      galois_mul 11 (galois_mul 2 (2 ^ m.val)) ^^^
      galois_mul 13 (galois_mul 1 (2 ^ m.val)) = 0) ∧
    (galois_mul 9 (galois_mul 1 (2 ^ m.val)) ^^^
      galois_mul 14 (galois_mul 1 (2 ^ m.val)) ^^^
      galois_mul 11 (galois_mul 3 (2 ^ m.val)) ^^^
      galois_mul 13 (galois_mul 2 (2 ^ m.val)) = 0) ∧
    (galois_mul 13 (galois_mul 2 (2 ^ m.val)) ^^^
      galois_mul 9 (galois_mul 1 (2 ^ m.val)) ^^^
      galois_mul 14 (galois_mul 1 (2 ^ m.val)) ^^^
      galois_mul 11 (galois_mul 3 (2 ^ m.val)) = 0) ∧
    (galois_mul 13 (galois_mul 3 (2 ^ m.val)) ^^^
      galois_mul 9 (galois_mul 2 (2 ^ m.val)) ^^^
      galois_mul 14 (galois_mul 1 (2 ^ m.val)) ^^^
      galois_mul 11 (galois_mul 1 (2 ^ m.val)) = 0) ∧
    (galois_mul 13 (galois_mul 1 (2 ^ m.val)) ^^^
      galois_mul 9 (galois_mul 3 (2 ^ m.val)) ^^^
      galois_mul 14 (galois_mul 2 (2 ^ m.val)) ^^^
      galois_mul 11 (galois_mul 1 (2 ^ m.val)) = 2 ^ m.val) ∧
    (galois_mul 13 (galois_mul 1 (2 ^ m.val)) ^^^
      galois_mul 9 (galois_mul 1 (2 ^ m.val)) ^^^
      galois_mul 14 (galois_mul 3 (2 ^ m.val)) ^^^
      galois_mul 11 (galois_mul 2 (2 ^ m.val)) = 0) ∧
    (galois_mul 11 (galois_mul 2 (2 ^ m.val)) ^^^
      galois_mul 13 (galois_mul 1 (2 ^ m.val)) ^^^
      galois_mul 9 (galois_mul 1 (2 ^ m.val)) ^^^
      galois_mul 14 (galois_mul 3 (2 ^ m.val)) = 0) ∧
    (galois_mul 11 (galois_mul 3 (2 ^ m.val)) ^^^
      galois_mul 13 (galois_mul 2 (2 ^ m.val)) ^^^
      galois_mul 9 (galois_mul 1 (2 ^ m.val)) ^^^
      galois_mul 14 (galois_mul 1 (2 ^ m.val)) = 0) ∧
    (galois_mul 11 (galois_mul 1 (2 ^ m.val)) ^^^
      galois_mul 13 (galois_mul 3 (2 ^ m.val)) ^^^
      galois_mul 9 (galois_mul 2 (2 ^ m.val)) ^^^
      galois_mul 14 (galois_mul 1 (2 ^ m.val)) = 0) ∧
    (galois_mul 11 (galois_mul 1 (2 ^ m.val)) ^^^
      galois_mul 13 (galois_mul 1 (2 ^ m.val)) ^^^
      galois_mul 9 (galois_mul 3 (2 ^ m.val)) ^^^
      galois_mul 14 (galois_mul 2 (2 ^ m.val)) = 2 ^ m.val) := by decide

/-- Entry (0, 0) of the inverse-times-forward MixColumns product
acts as the identity on every byte. -/
theorem mix_collapse_0_0 (x : Nat) (hx : x < 256) :
    galois_mul 14 (galois_mul 2 x) ^^^
      galois_mul 11 (galois_mul 1 x) ^^^
      galois_mul 13 (galois_mul 1 x) ^^^
      galois_mul 9 (galois_mul 3 x) = x :=
  linear_byte_ext
    (fun x => galois_mul 14 (galois_mul 2 x) ^^^
      galois_mul 11 (galois_mul 1 x) ^^^
      galois_mul 13 (galois_mul 1 x) ^^^
      galois_mul 9 (galois_mul 3 x))
    (fun x => x)
    (fun u v => quad_linear 14 11 13 9 2 1 1 3 u v)
    (fun u v => rfl)
    (by simp [galois_mul_zero_right]) rfl
    (fun m hm => (collapse_basis ⟨m, hm⟩).1)
    8 (le_refl 8) x hx

/-- Entry (0, 1) of the inverse-times-forward MixColumns product
acts as zero on every byte. -/
theorem mix_collapse_0_1 (x : Nat) (hx : x < 256) :
    galois_mul 14 (galois_mul 3 x) ^^^
      galois_mul 11 (galois_mul 2 x) ^^^
      galois_mul 13 (galois_mul 1 x) ^^^
      galois_mul 9 (galois_mul 1 x) = 0 :=
  linear_byte_ext
    (fun x => galois_mul 14 (galois_mul 3 x) ^^^
      galois_mul 11 (galois_mul 2 x) ^^^
      galois_mul 13 (galois_mul 1 x) ^^^
      galois_mul 9 (galois_mul 1 x))
    (fun _ => (0 : Nat))
    (fun u v => quad_linear 14 11 13 9 3 2 1 1 u v)
    (fun u v => (Nat.xor_self 0).symm)
    (by simp [galois_mul_zero_right]) rfl
    (fun m hm => (collapse_basis ⟨m, hm⟩).2.1)
    8 (le_refl 8) x hx

/-- Entry (0, 2) of the inverse-times-forward MixColumns product
acts as zero on every byte. -/
theorem mix_collapse_0_2 (x : Nat) (hx : x < 256) :
    galois_mul 14 (galois_mul 1 x) ^^^
      galois_mul 11 (galois_mul 3 x) ^^^
      galois_mul 13 (galois_mul 2 x) ^^^
      galois_mul 9 (galois_mul 1 x) = 0 :=
  linear_byte_ext
    (fun x => galois_mul 14 (galois_mul 1 x) ^^^
      galois_mul 11 (galois_mul 3 x) ^^^
      galois_mul 13 (galois_mul 2 x) ^^^
      galois_mul 9 (galois_mul 1 x))
    (fun _ => (0 : Nat))
    (fun u v => quad_linear 14 11 13 9 1 3 2 1 u v)
    (fun u v => (Nat.xor_self 0).symm)
    (by simp [galois_mul_zero_right]) rfl
    (fun m hm => (collapse_basis ⟨m, hm⟩).2.2.1)
    8 (le_refl 8) x hx

/-- Entry (0, 3) of the inverse-times-forward MixColumns product
acts as zero on every byte. -/
theorem mix_collapse_0_3 (x : Nat) (hx : x < 256) :
    galois_mul 14 (galois_mul 1 x) ^^^
      galois_mul 11 (galois_mul 1 x) ^^^
      galois_mul 13 (galois_mul 3 x) ^^^
      galois_mul 9 (galois_mul 2 x) = 0 :=
  linear_byte_ext
    (fun x => galois_mul 14 (galois_mul 1 x) ^^^
      galois_mul 11 (galois_mul 1 x) ^^^
      galois_mul 13 (galois_mul 3 x) ^^^
      galois_mul 9 (galois_mul 2 x))
    (fun _ => (0 : Nat))
    (fun u v => quad_linear 14 11 13 9 1 1 3 2 u v)
    (fun u v => (Nat.xor_self 0).symm)
    (by simp [galois_mul_zero_right]) rfl
    (fun m hm => (collapse_basis ⟨m, hm⟩).2.2.2.1)
    8 (le_refl 8) x hx

/-- Entry (1, 0) of the inverse-times-forward MixColumns product
acts as zero on every byte. -/
theorem mix_collapse_1_0 (x : Nat) (hx : x < 256) :
    galois_mul 9 (galois_mul 2 x) ^^^
      galois_mul 14 (galois_mul 1 x) ^^^
      galois_mul 11 (galois_mul 1 x) ^^^
      galois_mul 13 (galois_mul 3 x) = 0 :=
  linear_byte_ext
    (fun x => galois_mul 9 (galois_mul 2 x) ^^^
      galois_mul 14 (galois_mul 1 x) ^^^
      galois_mul 11 (galois_mul 1 x) ^^^
      galois_mul 13 (galois_mul 3 x))
    (fun _ => (0 : Nat))
    (fun u v => quad_linear 9 14 11 13 2 1 1 3 u v)
    (fun u v => (Nat.xor_self 0).symm)
    (by simp [galois_mul_zero_right]) rfl
    (fun m hm => (collapse_basis ⟨m, hm⟩).2.2.2.2.1)
    8 (le_refl 8) x hx

/-- Entry (1, 1) of the inverse-times-forward MixColumns product
acts as the identity on every byte. -/
theorem mix_collapse_1_1 (x : Nat) (hx : x < 256) :
    galois_mul 9 (galois_mul 3 x) ^^^
      galois_mul 14 (galois_mul 2 x) ^^^
      galois_mul 11 (galois_mul 1 x) ^^^
      galois_mul 13 (galois_mul 1 x) = x :=
  linear_byte_ext
    (fun x => galois_mul 9 (galois_mul 3 x) ^^^
      galois_mul 14 (galois_mul 2 x) ^^^
      galois_mul 11 (galois_mul 1 x) ^^^
      galois_mul 13 (galois_mul 1 x))
    (fun x => x)
    (fun u v => quad_linear 9 14 11 13 3 2 1 1 u v)
    (fun u v => rfl)
    (by simp [galois_mul_zero_right]) rfl
    (fun m hm => (collapse_basis ⟨m, hm⟩).2.2.2.2.2.1)
    8 (le_refl 8) x hx

/-- Entry (1, 2) of the inverse-times-forward MixColumns product
acts as zero on every byte. -/
theorem mix_collapse_1_2 (x : Nat) (hx : x < 256) :
    galois_mul 9 (galois_mul 1 x) ^^^
      galois_mul 14 (galois_mul 3 x) ^^^
      galois_mul 11 (galois_mul 2 x) ^^^
      galois_mul 13 (galois_mul 1 x) = 0 :=
  linear_byte_ext
    (fun x => galois_mul 9 (galois_mul 1 x) ^^^
      galois_mul 14 (galois_mul 3 x) ^^^
      galois_mul 11 (galois_mul 2 x) ^^^
      galois_mul 13 (galois_mul 1 x))
    (fun _ => (0 : Nat))
    (fun u v => quad_linear 9 14 11 13 1 3 2 1 u v)
    (fun u v => (Nat.xor_self 0).symm)
    (by simp [galois_mul_zero_right]) rfl
    (fun m hm => (collapse_basis ⟨m, hm⟩).2.2.2.2.2.2.1)
    8 (le_refl 8) x hx

/-- Entry (1, 3) of the inverse-times-forward MixColumns product
acts as zero on every byte. -/
theorem mix_collapse_1_3 (x : Nat) (hx : x < 256) :
    galois_mul 9 (galois_mul 1 x) ^^^
      galois_mul 14 (galois_mul 1 x) ^^^
      galois_mul 11 (galois_mul 3 x) ^^^
      galois_mul 13 (galois_mul 2 x) = 0 :=
  linear_byte_ext
    (fun x => galois_mul 9 (galois_mul 1 x) ^^^
      galois_mul 14 (galois_mul 1 x) ^^^
      galois_mul 11 (galois_mul 3 x) ^^^
      galois_mul 13 (galois_mul 2 x))
    (fun _ => (0 : Nat))
    (fun u v => quad_linear 9 14 11 13 1 1 3 2 u v)
    (fun u v => (Nat.xor_self 0).symm)
    (by simp [galois_mul_zero_right]) rfl
    (fun m hm => (collapse_basis ⟨m, hm⟩).2.2.2.2.2.2.2.1)
    8 (le_refl 8) x hx

/-- Entry (2, 0) of the inverse-times-forward MixColumns product
acts as zero on every byte. -/
theorem mix_collapse_2_0 (x : Nat) (hx : x < 256) :
    galois_mul 13 (galois_mul 2 x) ^^^
      galois_mul 9 (galois_mul 1 x) ^^^
      galois_mul 14 (galois_mul 1 x) ^^^
      galois_mul 11 (galois_mul 3 x) = 0 :=
  linear_byte_ext
    (fun x => galois_mul 13 (galois_mul 2 x) ^^^
      galois_mul 9 (galois_mul 1 x) ^^^
      galois_mul 14 (galois_mul 1 x) ^^^
      galois_mul 11 (galois_mul 3 x))
    (fun _ => (0 : Nat))
    (fun u v => quad_linear 13 9 14 11 2 1 1 3 u v)
    (fun u v => (Nat.xor_self 0).symm)
    (by simp [galois_mul_zero_right]) rfl
    (fun m hm => (collapse_basis ⟨m, hm⟩).2.2.2.2.2.2.2.2.1)
    8 (le_refl 8) x hx

/-- Entry (2, 1) of the inverse-times-forward MixColumns product
acts as zero on every byte. -/
theorem mix_collapse_2_1 (x : Nat) (hx : x < 256) :
    galois_mul 13 (galois_mul 3 x) ^^^
      galois_mul 9 (galois_mul 2 x) ^^^
      galois_mul 14 (galois_mul 1 x) ^^^
      galois_mul 11 (galois_mul 1 x) = 0 :=
  linear_byte_ext
    (fun x => galois_mul 13 (galois_mul 3 x) ^^^
      galois_mul 9 (galois_mul 2 x) ^^^
      galois_mul 14 (galois_mul 1 x) ^^^
      galois_mul 11 (galois_mul 1 x))
    (fun _ => (0 : Nat))
    (fun u v => quad_linear 13 9 14 11 3 2 1 1 u v)
    (fun u v => (Nat.xor_self 0).symm)
    (by simp [galois_mul_zero_right]) rfl
    (fun m hm => (collapse_basis ⟨m, hm⟩).2.2.2.2.2.2.2.2.2.1)
    8 (le_refl 8) x hx

/-- Entry (2, 2) of the inverse-times-forward MixColumns product
acts as the identity on every byte. -/
theorem mix_collapse_2_2 (x : Nat) (hx : x < 256) :
    galois_mul 13 (galois_mul 1 x) ^^^
      galois_mul 9 (galois_mul 3 x) ^^^
      galois_mul 14 (galois_mul 2 x) ^^^
      galois_mul 11 (galois_mul 1 x) = x :=
  linear_byte_ext
    (fun x => galois_mul 13 (galois_mul 1 x) ^^^
      galois_mul 9 (galois_mul 3 x) ^^^
      galois_mul 14 (galois_mul 2 x) ^^^
      galois_mul 11 (galois_mul 1 x))
    (fun x => x)
    (fun u v => quad_linear 13 9 14 11 1 3 2 1 u v)
    (fun u v => rfl)
    (by simp [galois_mul_zero_right]) rfl
    (fun m hm => (collapse_basis ⟨m, hm⟩).2.2.2.2.2.2.2.2.2.2.1)
    8 (le_refl 8) x hx

/-- Entry (2, 3) of the inverse-times-forward MixColumns product
acts as zero on every byte. -/
theorem mix_collapse_2_3 (x : Nat) (hx : x < 256) :
    galois_mul 13 (galois_mul 1 x) ^^^
      galois_mul 9 (galois_mul 1 x) ^^^
      galois_mul 14 (galois_mul 3 x) ^^^
      galois_mul 11 (galois_mul 2 x) = 0 :=
  linear_byte_ext
    (fun x => galois_mul 13 (galois_mul 1 x) ^^^
      galois_mul 9 (galois_mul 1 x) ^^^
      galois_mul 14 (galois_mul 3 x) ^^^
      galois_mul 11 (galois_mul 2 x))
    (fun _ => (0 : Nat))
    (fun u v => quad_linear 13 9 14 11 1 1 3 2 u v)
    (fun u v => (Nat.xor_self 0).symm)
    (by simp [galois_mul_zero_right]) rfl
    (fun m hm => (collapse_basis ⟨m, hm⟩).2.2.2.2.2.2.2.2.2.2.2.1)
    8 (le_refl 8) x hx

/-- Entry (3, 0) of the inverse-times-forward MixColumns product
acts as zero on every byte. -/
theorem mix_collapse_3_0 (x : Nat) (hx : x < 256) :
    galois_mul 11 (galois_mul 2 x) ^^^
      galois_mul 13 (galois_mul 1 x) ^^^
      galois_mul 9 (galois_mul 1 x) ^^^
      galois_mul 14 (galois_mul 3 x) = 0 :=
  linear_byte_ext
    (fun x => galois_mul 11 (galois_mul 2 x) ^^^
      galois_mul 13 (galois_mul 1 x) ^^^
      galois_mul 9 (galois_mul 1 x) ^^^
      galois_mul 14 (galois_mul 3 x))
    (fun _ => (0 : Nat))
    (fun u v => quad_linear 11 13 9 14 2 1 1 3 u v)
    (fun u v => (Nat.xor_self 0).symm)
    (by simp [galois_mul_zero_right]) rfl
    (fun m hm => (collapse_basis ⟨m, hm⟩).2.2.2.2.2.2.2.2.2.2.2.2.1)
    8 (le_refl 8) x hx

/-- Entry (3, 1) of the inverse-times-forward MixColumns product
acts as zero on every byte. -/
theorem mix_collapse_3_1 (x : Nat) (hx : x < 256) :
    galois_mul 11 (galois_mul 3 x) ^^^
      galois_mul 13 (galois_mul 2 x) ^^^
      galois_mul 9 (galois_mul 1 x) ^^^
      galois_mul 14 (galois_mul 1 x) = 0 :=
  linear_byte_ext
    (fun x => galois_mul 11 (galois_mul 3 x) ^^^
      galois_mul 13 (galois_mul 2 x) ^^^
      galois_mul 9 (galois_mul 1 x) ^^^
      galois_mul 14 (galois_mul 1 x))
    (fun _ => (0 : Nat))
    (fun u v => quad_linear 11 13 9 14 3 2 1 1 u v)
    (fun u v => (Nat.xor_self 0).symm)
    (by simp [galois_mul_zero_right]) rfl
    (fun m hm => (collapse_basis ⟨m, hm⟩).2.2.2.2.2.2.2.2.2.2.2.2.2.1)
    8 (le_refl 8) x hx

/-- Entry (3, 2) of the inverse-times-forward MixColumns product
acts as zero on every byte. -/
theorem mix_collapse_3_2 (x : Nat) (hx : x < 256) :
    galois_mul 11 (galois_mul 1 x) ^^^
      galois_mul 13 (galois_mul 3 x) ^^^
      galois_mul 9 (galois_mul 2 x) ^^^
      galois_mul 14 (galois_mul 1 x) = 0 :=
  linear_byte_ext
    (fun x => galois_mul 11 (galois_mul 1 x) ^^^
      galois_mul 13 (galois_mul 3 x) ^^^
      galois_mul 9 (galois_mul 2 x) ^^^
      galois_mul 14 (galois_mul 1 x))
    (fun _ => (0 : Nat))
    (fun u v => quad_linear 11 13 9 14 1 3 2 1 u v)
    (fun u v => (Nat.xor_self 0).symm)
    (by simp [galois_mul_zero_right]) rfl
    (fun m hm => (collapse_basis ⟨m, hm⟩).2.2.2.2.2.2.2.2.2.2.2.2.2.2.1)
    8 (le_refl 8) x hx

/-- Entry (3, 3) of the inverse-times-forward MixColumns product
acts as the identity on every byte. -/
theorem mix_collapse_3_3 (x : Nat) (hx : x < 256) :
    galois_mul 11 (galois_mul 1 x) ^^^
      galois_mul 13 (galois_mul 1 x) ^^^
      galois_mul 9 (galois_mul 3 x) ^^^
      galois_mul 14 (galois_mul 2 x) = x :=
  linear_byte_ext
    (fun x => galois_mul 11 (galois_mul 1 x) ^^^
      galois_mul 13 (galois_mul 1 x) ^^^
      galois_mul 9 (galois_mul 3 x) ^^^
      galois_mul 14 (galois_mul 2 x))
    (fun x => x)
    (fun u v => quad_linear 11 13 9 14 1 1 3 2 u v)
    (fun u v => rfl)
    (by simp [galois_mul_zero_right]) rfl
    (fun m hm => (collapse_basis ⟨m, hm⟩).2.2.2.2.2.2.2.2.2.2.2.2.2.2.2)
    8 (le_refl 8) x hx

/-- XOR by the same value twice is the identity. -/
theorem xor_xor_cancel (x y : Nat) : x ^^^ y ^^^ y = x := by
  rw [Nat.xor_assoc, Nat.xor_self, Nat.xor_zero]

/-- InvMixColumns undoes MixColumns on one byte-valued column. -/
theorem mix_col_inv (w : Word) (h : WordLt w) :
    mix_col (mix_col w TRANSFORMATION_MATRIX) INVERSE_TRANSFORMATION_MATRIX = w := by
  obtain ⟨x0, x1, x2, x3⟩ := w
  obtain ⟨h0, h1, h2, h3⟩ := h
  simp only [mix_col, TRANSFORMATION_MATRIX, INVERSE_TRANSFORMATION_MATRIX, Word.mk.injEq]
  refine ⟨?_, ?_, ?_, ?_⟩
  · simp only [galois_mul_distrib]
    rw [xor_regroup16, mix_collapse_0_0 x0 h0, mix_collapse_0_1 x1 h1,
      mix_collapse_0_2 x2 h2, mix_collapse_0_3 x3 h3]
    simp
  · simp only [galois_mul_distrib]
    rw [xor_regroup16, mix_collapse_1_0 x0 h0, mix_collapse_1_1 x1 h1,
      mix_collapse_1_2 x2 h2, mix_collapse_1_3 x3 h3]
    simp
  · simp only [galois_mul_distrib]
    rw [xor_regroup16, mix_collapse_2_0 x0 h0, mix_collapse_2_1 x1 h1,
      mix_collapse_2_2 x2 h2, mix_collapse_2_3 x3 h3]
    simp
  · simp only [galois_mul_distrib]
    rw [xor_regroup16, mix_collapse_3_0 x0 h0, mix_collapse_3_1 x1 h1,
      mix_collapse_3_2 x2 h2, mix_collapse_3_3 x3 h3]
    simp

/-! ## State transformation inverses and byte-range preservation -/

/-- AddRoundKey is an involution. -/
theorem add_round_key_inv (s k : Mat) : add_round_key (add_round_key s k) k = s := by
  obtain ⟨⟨a0, a1, a2, a3⟩, ⟨b0, b1, b2, b3⟩, ⟨c0, c1, c2, c3⟩, ⟨d0, d1, d2, d3⟩⟩ := s
  obtain ⟨⟨e0, e1, e2, e3⟩, ⟨f0, f1, f2, f3⟩, ⟨g0, g1, g2, g3⟩, ⟨h0, h1, h2, h3⟩⟩ := k
  simp [add_round_key, xor_matrices, xor_array, xor_xor_cancel]

/-- One byte through the forward then the inverse S-box. -/
theorem sbox_byte_inv (b : Nat) (hb : b < 256) :
    sboxByte AES_INVERSE_S_BOX (sboxByte AES_S_BOX b) = b := sbox_inverse ⟨b, hb⟩

/-- The forward S-box keeps the byte range. -/
theorem sbox_byte_lt (b : Nat) (hb : b < 256) : sboxByte AES_S_BOX b < 256 := sbox_lt ⟨b, hb⟩

/-- InvSubBytes undoes SubBytes on a byte-valued word. -/
theorem sub_word_inv (w : Word) (h : WordLt w) :
    sub_word AES_INVERSE_S_BOX (sub_word AES_S_BOX w) = w := by
  obtain ⟨x0, x1, x2, x3⟩ := w
  obtain ⟨h0, h1, h2, h3⟩ := h
  simp [sub_word, sbox_byte_inv _ h0, sbox_byte_inv _ h1, sbox_byte_inv _ h2, sbox_byte_inv _ h3]

/-- InvSubBytes undoes SubBytes on a byte-valued state. -/
theorem sub_bytes_inv (s : Mat) (h : MatLt s) :
    sub_bytes (sub_bytes s AES_S_BOX) AES_INVERSE_S_BOX = s := by
  obtain ⟨w0, w1, w2, w3⟩ := s
  obtain ⟨h0, h1, h2, h3⟩ := h
  simp [sub_bytes, sub_word_inv _ h0, sub_word_inv _ h1, sub_word_inv _ h2, sub_word_inv _ h3]

/-- InvShiftRows undoes ShiftRows. -/
theorem shift_rows_inv (s : Mat) : inv_shift_rows (shift_rows s) = s := by
  obtain ⟨⟨a0, a1, a2, a3⟩, ⟨b0, b1, b2, b3⟩, ⟨c0, c1, c2, c3⟩, ⟨d0, d1, d2, d3⟩⟩ := s
  rfl

/-- InvMixColumns undoes MixColumns on a byte-valued state. -/
theorem mix_columns_inv (s : Mat) (h : MatLt s) :
    mix_columns (mix_columns s TRANSFORMATION_MATRIX) INVERSE_TRANSFORMATION_MATRIX = s := by
  obtain ⟨w0, w1, w2, w3⟩ := s
  obtain ⟨h0, h1, h2, h3⟩ := h
  simp [mix_columns, mix_col_inv _ h0, mix_col_inv _ h1, mix_col_inv _ h2, mix_col_inv _ h3]

/-- XOR of byte-valued words is byte-valued. -/
theorem xor_array_lt {a b : Word} (ha : WordLt a) (hb : WordLt b) : WordLt (xor_array a b) :=
  ⟨xor_lt_256 ha.1 hb.1, xor_lt_256 ha.2.1 hb.2.1, xor_lt_256 ha.2.2.1 hb.2.2.1,
    xor_lt_256 ha.2.2.2 hb.2.2.2⟩

/-- XOR of byte-valued states is byte-valued. -/
theorem xor_matrices_lt {a b : Mat} (ha : MatLt a) (hb : MatLt b) : MatLt (xor_matrices a b) :=
  ⟨xor_array_lt ha.1 hb.1, xor_array_lt ha.2.1 hb.2.1, xor_array_lt ha.2.2.1 hb.2.2.1,
    xor_array_lt ha.2.2.2 hb.2.2.2⟩

/-- SubBytes keeps the byte range. -/
theorem sub_word_lt {w : Word} (h : WordLt w) : WordLt (sub_word AES_S_BOX w) :=
  ⟨sbox_byte_lt _ h.1, sbox_byte_lt _ h.2.1, sbox_byte_lt _ h.2.2.1, sbox_byte_lt _ h.2.2.2⟩

theorem sub_bytes_lt {s : Mat} (h : MatLt s) : MatLt (sub_bytes s AES_S_BOX) :=
  ⟨sub_word_lt h.1, sub_word_lt h.2.1, sub_word_lt h.2.2.1, sub_word_lt h.2.2.2⟩

/-- ShiftRows keeps the byte range. -/
theorem shift_rows_lt {s : Mat} (h : MatLt s) : MatLt (shift_rows s) := by
  obtain ⟨⟨a0, a1, a2, a3⟩, ⟨b0, b1, b2, b3⟩, ⟨c0, c1, c2, c3⟩, ⟨d0, d1, d2, d3⟩⟩ := s
  obtain ⟨⟨ha0, ha1, ha2, ha3⟩, ⟨hb0, hb1, hb2, hb3⟩, ⟨hc0, hc1, hc2, hc3⟩,
    ⟨hd0, hd1, hd2, hd3⟩⟩ := h
  exact ⟨⟨ha0, hb1, hc2, hd3⟩, ⟨hb0, hc1, hd2, ha3⟩, ⟨hc0, hd1, ha2, hb3⟩, ⟨hd0, ha1, hb2, hc3⟩⟩

/-- MixColumns by a byte-valued matrix produces byte values, for any
input column. -/
theorem mix_col_lt {tm : Mat} (htm : MatLt tm) (w : Word) : WordLt (mix_col w tm) := by
  obtain ⟨⟨a0, a1, a2, a3⟩, ⟨b0, b1, b2, b3⟩, ⟨c0, c1, c2, c3⟩, ⟨d0, d1, d2, d3⟩⟩ := tm
  obtain ⟨⟨ha0, ha1, ha2, ha3⟩, ⟨hb0, hb1, hb2, hb3⟩, ⟨hc0, hc1, hc2, hc3⟩,
    ⟨hd0, hd1, hd2, hd3⟩⟩ := htm
  refine ⟨?_, ?_, ?_, ?_⟩ <;>
    · apply xor_lt_256
      apply xor_lt_256
      apply xor_lt_256
      all_goals apply galois_mul_lt
      all_goals assumption

theorem mix_columns_lt {tm : Mat} (htm : MatLt tm) (s : Mat) : MatLt (mix_columns s tm) :=
  ⟨mix_col_lt htm _, mix_col_lt htm _, mix_col_lt htm _, mix_col_lt htm _⟩

/-- The fixed MixColumns matrices are byte-valued. -/
theorem tmat_lt : MatLt TRANSFORMATION_MATRIX := by decide

theorem inv_tmat_lt : MatLt INVERSE_TRANSFORMATION_MATRIX := by decide

/-- Every round key of the schedule is byte-valued. -/
def KeysLt (ks : KeySchedule) : Prop := ∀ r : Nat, MatLt (ks.round_key r)

/-- One main encryption round emits byte values whenever its round key
is byte-valued. -/
theorem enc_round_lt (ks : KeySchedule) (r : Nat) (m : Mat) (hk : MatLt (ks.round_key r)) :
    MatLt (enc_round ks m r) :=
  xor_matrices_lt (mix_columns_lt tmat_lt _) hk

/-- The main encryption loop emits byte values. -/
theorem foldl_enc_lt (ks : KeySchedule) (hks : KeysLt ks) :
    ∀ L : List Nat, ∀ s : Mat, MatLt s → MatLt (L.foldl (enc_round ks) s) := by
  intro L
  induction L with
  | nil => intro s hs; exact hs
  | cons r L ih => intro s hs; exact ih (enc_round ks s r) (enc_round_lt ks r s (hks r))

/-- One main decryption round undoes the matching encryption round,
through the pending SubBytes-ShiftRows pair. -/
theorem dec_round_undo (ks : KeySchedule) (r : Nat) (m : Mat) (hm : MatLt m)
    (hk : MatLt (ks.round_key r)) :
    dec_round ks (shift_rows (sub_bytes (enc_round ks m r) AES_S_BOX)) r
      = shift_rows (sub_bytes m AES_S_BOX) := by
  show mix_columns
      (add_round_key
        (sub_bytes
          (inv_shift_rows (shift_rows (sub_bytes (enc_round ks m r) AES_S_BOX)))
          AES_INVERSE_S_BOX)
        (ks.round_key r))
      INVERSE_TRANSFORMATION_MATRIX = shift_rows (sub_bytes m AES_S_BOX)
  rw [shift_rows_inv, sub_bytes_inv _ (enc_round_lt ks r m hk),
    show enc_round ks m r
        = add_round_key (mix_columns (shift_rows (sub_bytes m AES_S_BOX)) TRANSFORMATION_MATRIX)
          (ks.round_key r) from rfl,
    add_round_key_inv, mix_columns_inv _ (shift_rows_lt (sub_bytes_lt hm))]

/-- The reversed decryption loop undoes the encryption loop, through
the pending SubBytes-ShiftRows pair. -/
theorem dec_loop_undo (ks : KeySchedule) (hks : KeysLt ks) :
    ∀ L : List Nat, ∀ s : Mat, MatLt s →
      L.reverse.foldl (dec_round ks)
          (shift_rows (sub_bytes (L.foldl (enc_round ks) s) AES_S_BOX))
        = shift_rows (sub_bytes s AES_S_BOX) := by
  intro L
  induction L using List.reverseRecOn with
  | nil => intro s hs; simp
  | append_singleton L r ih =>
      intro s hs
      rw [show (L ++ [r]).reverse = r :: L.reverse by simp]
      simp only [List.foldl_append, List.foldl_cons, List.foldl_nil]
      rw [dec_round_undo ks r _ (foldl_enc_lt ks hks L s hs) (hks r)]
      exact ih s hs

/-- The AES block decryption pipeline inverts the block encryption
pipeline on byte-valued states, for any schedule with byte-valued
round keys. -/
theorem aes_block_inverse (ks : KeySchedule) (hks : KeysLt ks) (s : Mat) (hs : MatLt s) :
    AesOps.decrypt (AesOps.encrypt s ks) ks = s := by
  have hE : AesOps.encrypt s ks
      = add_round_key
          (shift_rows
            (sub_bytes
              ((List.range' 1 (ks.rounds - 1)).foldl (enc_round ks)
                (add_round_key s (ks.round_key 0)))
              AES_S_BOX))
          (ks.round_key ks.rounds) := rfl
  have hD : AesOps.decrypt (AesOps.encrypt s ks) ks
      = add_round_key
          (sub_bytes
            (inv_shift_rows
              ((List.range' 1 (ks.rounds - 1)).reverse.foldl (dec_round ks)
                (add_round_key (AesOps.encrypt s ks) (ks.round_key ks.rounds))))
            AES_INVERSE_S_BOX)
          (ks.round_key 0) := rfl
  have hs0 : MatLt (add_round_key s (ks.round_key 0)) := xor_matrices_lt hs (hks 0)
  rw [hD, hE, add_round_key_inv,
    dec_loop_undo ks hks (List.range' 1 (ks.rounds - 1)) _ hs0,
    shift_rows_inv, sub_bytes_inv _ hs0, add_round_key_inv]

/-! ## Key expansion: success and byte-range invariants -/

/-- Every word of a list is byte-valued. -/
def WordsLt (ws : List Word) : Prop := ∀ w ∈ ws, WordLt w

/-- A `getD` byte lookup in a byte-valued list stays a byte. -/
theorem getD_lt_256 (l : List Nat) (h : ∀ b ∈ l, b < 256) (n : Nat) : l.getD n 0 < 256 := by
  rw [List.getD_eq_getElem?_getD]
  cases hx : l[n]? with
  | none => simp
  | some x => simpa using h x (List.getElem?_mem hx)

/-- A `getD` word lookup in a byte-valued word list is byte-valued. -/
theorem word_getD_lt (l : List Word) (h : WordsLt l) (n : Nat) : WordLt (l.getD n zeroWord) := by
  rw [List.getD_eq_getElem?_getD]
  cases hx : l[n]? with
  | none => exact (by decide : WordLt zeroWord)
  | some w => exact h w (List.getElem?_mem hx)

/-- A schedule whose word list is byte-valued has byte-valued round
keys. -/
theorem keysLt_of_wordsLt (ks : KeySchedule) (h : WordsLt ks.keys) : KeysLt ks := fun r =>
  ⟨word_getD_lt _ h (r * 4), word_getD_lt _ h (r * 4 + 1), word_getD_lt _ h (r * 4 + 2),
    word_getD_lt _ h (r * 4 + 3)⟩

/-- `mkWord` of byte values is byte-valued. -/
theorem mkWord_lt (l : List Nat) (h : ∀ b ∈ l, b < 256) : WordLt (mkWord l) :=
  ⟨getD_lt_256 l h 0, getD_lt_256 l h 1, getD_lt_256 l h 2, getD_lt_256 l h 3⟩

/-- The chunked key words of a byte-valued key are byte-valued. -/
theorem chunkWords_lt : ∀ pk : List Nat, (∀ x ∈ pk, x < 256) → WordsLt (chunkWords pk) := by
  intro pk
  induction pk using chunkWords.induct with
  | case1 => intro _ w hw; cases hw
  | case2 a =>
      intro h w hw
      rw [show chunkWords [a] = [mkWord [a]] from rfl, List.mem_singleton] at hw
      exact hw ▸ mkWord_lt _ h
  | case3 a b =>
      intro h w hw
      rw [show chunkWords [a, b] = [mkWord [a, b]] from rfl, List.mem_singleton] at hw
      exact hw ▸ mkWord_lt _ h
  | case4 a b c =>
      intro h w hw
      rw [show chunkWords [a, b, c] = [mkWord [a, b, c]] from rfl, List.mem_singleton] at hw
      exact hw ▸ mkWord_lt _ h
  | case5 a b c d rest ih =>
      intro h w hw
      rw [show chunkWords (a :: b :: c :: d :: rest) = mkWord [a, b, c, d] :: chunkWords rest
          from rfl, List.mem_cons] at hw
      rcases hw with hw | hw
      · refine hw ▸ mkWord_lt _ (fun x hx => h x ?_)
        simp only [List.mem_cons] at hx ⊢
        tauto
      · exact ih (fun x hx => h x (by simp only [List.mem_cons]; tauto)) w hw

/-- The number of chunked key words. -/
theorem chunkWords_length : ∀ pk : List Nat, (chunkWords pk).length = (pk.length + 3) / 4 := by
  intro pk
  induction pk using chunkWords.induct with
  | case1 => rfl
  | case2 a => simp [chunkWords]
  | case3 a b => simp [chunkWords]
  | case4 a b c => simp [chunkWords]
  | case5 a b c d rest ih =>
      show (mkWord [a, b, c, d] :: chunkWords rest).length = _
      simp only [List.length_cons, ih]
      omega

/-- The round constants are bytes. -/
theorem rcon_lt (n : Nat) : ROUND_CONSTANT_128.getD n 0 < 256 :=
  getD_lt_256 _ (by decide) n

/-- The g-function maps byte-valued words to byte-valued words. -/
theorem g_function_lt (w : Word) (rc : Nat) (hw : WordLt w) (hrc : rc < 256) :
    WordLt (g_function w rc) := by
  obtain ⟨x0, x1, x2, x3⟩ := w
  obtain ⟨h0, h1, h2, h3⟩ := hw
  exact ⟨xor_lt_256 (sbox_byte_lt _ h1) hrc, sbox_byte_lt _ h2, sbox_byte_lt _ h3,
    sbox_byte_lt _ h0⟩

/-- One key-expansion round produces byte-valued words. -/
theorem generate_new_round_lt (km : Mat) (rc : Nat) (hk : MatLt km) (hrc : rc < 256) :
    MatLt (generate_new_round km rc) := by
  obtain ⟨hk0, hk1, hk2, hk3⟩ := hk
  have h0 : WordLt (generate_new_round km rc).m0 :=
    xor_array_lt (g_function_lt km.m3 rc hk3 hrc) hk0
  have h1 : WordLt (generate_new_round km rc).m1 := xor_array_lt h0 hk1
  have h2 : WordLt (generate_new_round km rc).m2 := xor_array_lt h1 hk2
  have h3 : WordLt (generate_new_round km rc).m3 := xor_array_lt h2 hk3
  exact ⟨h0, h1, h2, h3⟩

/-- A list of length four is literally four elements. -/
theorem list_len4 {α : Type} (l : List α) (h : l.length = 4) :
    ∃ a b c d, l = [a, b, c, d] := by
  rcases l with _ | ⟨a, _ | ⟨b, _ | ⟨c, _ | ⟨d, rest⟩⟩⟩⟩
  · simp at h
  · simp at h
  · simp at h
  · simp at h
  · rcases rest with _ | ⟨e, rest⟩
    · exact ⟨a, b, c, d, rfl⟩
    · simp at h

/-- The key-expansion round loop succeeds on any byte-valued word list
with at least four words, and keeps every word byte-valued. -/
theorem key_expansion_loop_ok :
    ∀ n round ws, 4 ≤ List.length ws → WordsLt ws →
      ∃ out, key_expansion_loop n round ws = .ok out ∧ 4 ≤ List.length out ∧ WordsLt out := by
  intro n
  induction n with
  | zero => intro round ws h4 hlt; exact ⟨ws, rfl, h4, hlt⟩
  | succ n ih =>
      intro round ws h4 hlt
      obtain ⟨r0, r1, r2, r3, hslice⟩ :=
        list_len4 (ws.drop (ws.length - 4)) (by rw [List.length_drop]; omega)
      have hmem : ∀ w ∈ [r0, r1, r2, r3], w ∈ ws := by
        intro w hw
        apply List.mem_of_mem_drop (n := ws.length - 4)
        rw [hslice]
        exact hw
      have hkm : MatLt ⟨r0, r1, r2, r3⟩ :=
        ⟨hlt r0 (hmem r0 (by simp)), hlt r1 (hmem r1 (by simp)),
          hlt r2 (hmem r2 (by simp)), hlt r3 (hmem r3 (by simp))⟩
      have hnm := generate_new_round_lt ⟨r0, r1, r2, r3⟩
        (ROUND_CONSTANT_128.getD round 0) hkm (rcon_lt round)
      set nm := generate_new_round ⟨r0, r1, r2, r3⟩ (ROUND_CONSTANT_128.getD round 0) with hnmdef
      have estep : key_expansion_loop (n + 1) round ws
          = key_expansion_loop n (round + 1) (ws ++ [nm.m0, nm.m1, nm.m2, nm.m3]) := by
        simp only [key_expansion_loop, hslice]
      have hlt2 : WordsLt (ws ++ [nm.m0, nm.m1, nm.m2, nm.m3]) := by
        intro w hw
        rcases List.mem_append.mp hw with hw | hw
        · exact hlt w hw
        · simp only [List.mem_cons, List.mem_singleton] at hw
          rcases hw with hw | hw | hw | hw | hw
          · exact hw ▸ hnm.1
          · exact hw ▸ hnm.2.1
          · exact hw ▸ hnm.2.2.1
          · exact hw ▸ hnm.2.2.2
          · cases hw
      obtain ⟨out, hout, hlen4, hwlt⟩ := ih (round + 1) (ws ++ [nm.m0, nm.m1, nm.m2, nm.m3])
        (by simp) hlt2
      exact ⟨out, estep ▸ hout, hlen4, hwlt⟩

/-- Key expansion succeeds on every byte-valued 16-byte key and yields
byte-valued words. -/
theorem key_expansion_ok (pk : List Nat) (hlen : pk.length = 16)
    (hb : ∀ x ∈ pk, x < 256) :
    ∃ out, key_expansion pk = .ok out ∧ WordsLt out := by
  have h4 : 4 ≤ (chunkWords pk).length := by rw [chunkWords_length, hlen]
  obtain ⟨out, hout, _, hwlt⟩ :=
    key_expansion_loop_ok 10 0 (chunkWords pk) h4 (chunkWords_lt pk hb)
  exact ⟨out, hout, hwlt⟩

/-- `KeySchedule::new` on a byte-valued 16-byte key: success, ten
rounds, byte-valued words. -/
theorem keySchedule_new_ok (pk : List Nat) (hlen : pk.length = 16)
    (hb : ∀ x ∈ pk, x < 256) :
    ∃ ks, KeySchedule.new pk = .ok ks ∧ ks.rounds = 10 ∧ WordsLt ks.keys := by
  obtain ⟨out, hout, hwlt⟩ := key_expansion_ok pk hlen hb
  refine ⟨{ keys := out, rounds := 10 }, ?_, rfl, hwlt⟩
  rw [KeySchedule.new, if_pos hlen, hout]

/-- `KeySchedule::new` rejects every length other than 16. -/
theorem keySchedule_new_reject (pk : List Nat) (hlen : pk.length ≠ 16) :
    KeySchedule.new pk = .error (.InvalidKeySize pk.length) := by
  rw [KeySchedule.new, if_neg hlen]

/-! ## PKCS#7 padding -/

/-- The padded buffer ends with the pad byte. -/
theorem pad_getLast (x : List Nat) (p : Nat) (hp : 1 ≤ p) :
    (x ++ List.replicate p p).getLast? = some p := by
  rw [List.getLast?_append, List.getLast?_replicate, if_neg (by omega)]
  rfl

/-- Stripping undoes padding on every byte sequence. -/
theorem strip_pad (x : List Nat) : strip_output (pad_input x) = .ok x := by
  have hmod : x.length % 16 < 16 := Nat.mod_lt _ (by norm_num)
  set p := 16 - x.length % 16 with hpdef
  have hp1 : 1 ≤ p := by omega
  have hp16 : p ≤ 16 := by omega
  have hpad : pad_input x = x ++ List.replicate p p := rfl
  have hlen : (x ++ List.replicate p p).length = x.length + p := by simp
  have h0 : (x ++ List.replicate p p).length % 16 = 0 := by rw [hlen]; omega
  have hlast : (x ++ List.replicate p p).getLast? = some p := pad_getLast x p hp1
  have hsub : (x ++ List.replicate p p).length - p = x.length := by rw [hlen]; omega
  have hdrop : (x ++ List.replicate p p).drop x.length = List.replicate p p :=
    List.drop_left x _
  have htake : (x ++ List.replicate p p).take x.length = x := List.take_left x _
  rw [hpad]
  simp only [strip_output, h0, hlast, hsub, hdrop, htake]
  rw [if_neg (by omega), if_neg (by omega : ¬(p > 16 ∨ p = 0))]
  simp

/-! ## Claim theorems -/

/-- C1: the CBC round-trip property fails on the code.  For the test
key, the test IV and the repository test plaintext `input0` (16 bytes),
decrypting the encryption output yields `input0 ++ input0`, not
`input0`: the encryption loop XORs the emitted ciphertext block with
the current plaintext block instead of chaining the next one, and
decryption never strips the padding. -/
theorem cbc_roundtrip_fails_on_input0 :
    CbcEncryptor.decrypt iv0 ks0
        (((CbcEncryptor.encrypt iv0 ks0 input0).map matToBytes).flatten)
      = .ok (input0 ++ input0) ∧ input0 ++ input0 ≠ input0 := by
  constructor
  · decide
  · decide

/-- C2: the CBC chaining recurrence fails on the code at block index 1.
For the test key, IV and `input0`, the padded plaintext blocks are
`P0 = input0` and `P1 = 16 bytes of 16`; the claim demands
`C1 = Encrypt(P1 XOR C0)`, but the code emits
`C1 = Encrypt(C0 XOR P0)`, and the two disagree. -/
theorem cbc_chaining_fails_on_input0 :
    matToBytes ((CbcEncryptor.encrypt iv0 ks0 input0).getD 1 zeroMat)
        = [17, 210, 7, 174, 109, 178, 129, 201, 24, 52, 14, 108, 136, 148, 142, 63] ∧
      matToBytes (AesOps.encrypt
          (xor_matrices (gen_matrix (List.replicate 16 16))
            ((CbcEncryptor.encrypt iv0 ks0 input0).getD 0 zeroMat))
          ks0)
        = [132, 153, 46, 188, 79, 73, 146, 102, 147, 38, 220, 217, 196, 120, 80, 171] ∧
      matToBytes ((CbcEncryptor.encrypt iv0 ks0 input0).getD 1 zeroMat)
        ≠ matToBytes (AesOps.encrypt
            (xor_matrices (gen_matrix (List.replicate 16 16))
              ((CbcEncryptor.encrypt iv0 ks0 input0).getD 0 zeroMat))
            ks0) := by
  refine ⟨by decide, by decide, by decide⟩

/-- C3, counterexample: a 24-byte key is rejected with
`InvalidKeySize 24`, although the claim says every 24-byte key is
accepted: the `try_into::<[u8; 16]>` in `KeySchedule::new` only admits
16 bytes. -/
theorem keySchedule_rejects_24_byte_key :
    KeySchedule.new (List.replicate 24 0) = .error (.InvalidKeySize 24) := by decide

/-- C3, amended: for byte-valued keys, key-schedule construction
succeeds exactly on length 16 (with ten rounds and no other failure),
and every other length, including 24 and 32, fails with
`InvalidKeySize(len)`. -/
theorem keySchedule_key_size (key : List Nat) (hb : ∀ x ∈ key, x < 256) :
    (key.length = 16 → ∃ ks, KeySchedule.new key = .ok ks ∧ ks.rounds = 10) ∧
      (key.length ≠ 16 → KeySchedule.new key = .error (.InvalidKeySize key.length)) := by
  constructor
  · intro hlen
    obtain ⟨ks, hok, hr, _⟩ := keySchedule_new_ok key hlen hb
    exact ⟨ks, hok, hr⟩
  · exact keySchedule_new_reject key

/-- C3, witness: the amended claim evaluated on the 16-byte test key. -/
theorem keySchedule_key_size_witness :
    (∀ x ∈ key0, x < 256) ∧
      ((key0.length = 16 → ∃ ks, KeySchedule.new key0 = .ok ks ∧ ks.rounds = 10) ∧
        (key0.length ≠ 16 → KeySchedule.new key0 = .error (.InvalidKeySize key0.length))) :=
  ⟨by decide, keySchedule_key_size key0 (by decide)⟩

/-- C4: `CbcEncryptor::decrypt` never strips the padding and never
fails on bad padding.  Decrypting the encryption of the empty message
returns the full 16-byte pad block (stripping would return the empty
message), and decrypting 16 zero bytes returns bytes whose trailing
padding is invalid, as `ok` rather than as a padding error. -/
theorem cbc_decrypt_keeps_padding :
    CbcEncryptor.decrypt iv0 ks0
        (((CbcEncryptor.encrypt iv0 ks0 []).map matToBytes).flatten)
      = .ok (List.replicate 16 16) ∧
    strip_output (List.replicate 16 16) = .ok [] ∧
    CbcEncryptor.decrypt iv0 ks0 (List.replicate 16 0)
      = .ok [29, 90, 81, 242, 59, 156, 249, 146, 197, 169, 220, 204, 201, 188, 117, 245] ∧
    strip_output [29, 90, 81, 242, 59, 156, 249, 146, 197, 169, 220, 204, 201, 188, 117, 245]
      = .error .InvalidPaddingSize := by
  refine ⟨by decide, by decide, by decide, by decide⟩

/-- C5: the fixed cipher vector.  Block-encrypting the FIPS-197 test
plaintext under the schedule of the key `[0, 1, ..., 15]` produces the
specified ciphertext bytes. -/
theorem aes128_cipher_fixed_vector :
    (KeySchedule.new key0).map (fun ks => matToBytes (AesOps.encrypt (gen_matrix input0) ks))
      = .ok [105, 196, 224, 216, 106, 123, 4, 48, 216, 205, 183, 128, 112, 180, 197, 90] := by
  decide

/-- C6: `CbcEncryptor::decrypt` fails with `InvalidCipherText` exactly
when the ciphertext length is not a multiple of 16, and succeeds (with
no other failure, hence no partial output on the length failure)
exactly when it is. -/
theorem cbc_decrypt_length_check (iv : Mat) (ks : KeySchedule) (cb : List Nat) :
    (CbcEncryptor.decrypt iv ks cb = .error .InvalidCipherText ↔ cb.length % 16 ≠ 0) ∧
      ((∃ out, CbcEncryptor.decrypt iv ks cb = .ok out) ↔ cb.length % 16 = 0) := by
  by_cases h : cb.length % 16 = 0
  · have hok : ∃ out, CbcEncryptor.decrypt iv ks cb = .ok out :=
      ⟨_, by rw [CbcEncryptor.decrypt, if_neg (by omega)]⟩
    obtain ⟨out, ho⟩ := hok
    rw [ho]
    constructor
    · simp [h]
    · exact ⟨fun _ => h, fun _ => ⟨out, rfl⟩⟩
  · have herr : CbcEncryptor.decrypt iv ks cb = .error .InvalidCipherText := by
      rw [CbcEncryptor.decrypt, if_pos (by omega)]
    rw [herr]
    constructor
    · simp [h]
    · constructor
      · intro hex
        obtain ⟨out, hout⟩ := hex
        exact absurd hout (by simp)
      · intro h0
        exact absurd h0 h

/-- C7: on buffers whose length is a multiple of 16, `strip_output`
fails with `EmptyBuffer` on the empty buffer, with `InvalidPaddingSize`
when the last byte is 0 or above 16, and with `InvalidPaddingBytes`
when the trailing bytes do not all equal the pad length. -/
theorem strip_output_rejections (buf : List Nat) (h16 : buf.length % 16 = 0) :
    (buf = [] → strip_output buf = .error .EmptyBuffer) ∧
      (∀ ps, buf.getLast? = some ps → (ps = 0 ∨ ps > 16) →
        strip_output buf = .error .InvalidPaddingSize) ∧
      (∀ ps, buf.getLast? = some ps → 0 < ps → ps ≤ 16 →
        buf.drop (buf.length - ps) ≠ List.replicate ps ps →
        strip_output buf = .error .InvalidPaddingBytes) := by
  refine ⟨?_, ?_, ?_⟩
  · intro he
    subst he
    decide
  · intro ps hps hbad
    simp only [strip_output, hps]
    rw [if_neg (by omega), if_pos (by omega)]
  · intro ps hps hlo hhi hbytes
    simp only [strip_output, hps]
    rw [if_neg (by omega), if_neg (by omega : ¬(ps > 16 ∨ ps = 0)), if_neg hbytes]

/-- C7, witness: the rejection conclusions evaluated on sixteen zero
bytes. -/
theorem strip_output_rejections_witness :
    (List.replicate 16 0).length % 16 = 0 ∧
      ((List.replicate 16 0 = ([] : List Nat) →
          strip_output (List.replicate 16 0) = .error .EmptyBuffer) ∧
        (∀ ps, (List.replicate 16 0).getLast? = some ps → (ps = 0 ∨ ps > 16) →
          strip_output (List.replicate 16 0) = .error .InvalidPaddingSize) ∧
        (∀ ps, (List.replicate 16 0).getLast? = some ps → 0 < ps → ps ≤ 16 →
          (List.replicate 16 0).drop ((List.replicate 16 0).length - ps)
              ≠ List.replicate ps ps →
          strip_output (List.replicate 16 0) = .error .InvalidPaddingBytes)) :=
  ⟨by decide, strip_output_rejections (List.replicate 16 0) (by decide)⟩

/-- C8: stripping undoes padding on every byte sequence, and the pad
is between 1 and 16 bytes each equal to the pad length, a full 16-byte
block when the length is already a multiple of 16, never zero bytes. -/
theorem pkcs_pad_roundtrip (x : List Nat) :
    strip_output (pad_input x) = .ok x ∧
      pad_input x = x ++ List.replicate (16 - x.length % 16) (16 - x.length % 16) ∧
      1 ≤ 16 - x.length % 16 ∧ 16 - x.length % 16 ≤ 16 ∧
      (x.length % 16 = 0 → 16 - x.length % 16 = 16) :=
  ⟨strip_pad x, rfl, by omega, by omega, fun _ => by omega⟩

/-- C8, witness: the padding round-trip evaluated on the empty
sequence. -/
theorem pkcs_pad_roundtrip_witness :
    strip_output (pad_input []) = .ok ([] : List Nat) ∧
      pad_input [] = ([] : List Nat) ++ List.replicate (16 - ([] : List Nat).length % 16)
        (16 - ([] : List Nat).length % 16) ∧
      1 ≤ 16 - ([] : List Nat).length % 16 ∧ 16 - ([] : List Nat).length % 16 ≤ 16 ∧
      (([] : List Nat).length % 16 = 0 → 16 - ([] : List Nat).length % 16 = 16) :=
  pkcs_pad_roundtrip []

/-- C9: on bytes, `galois_mul` is commutative and distributes over XOR
(and, being a total function, has no error condition). -/
theorem galois_mul_comm_and_distrib (a b c : Fin 256) :
    galois_mul a.val b.val = galois_mul b.val a.val ∧
      galois_mul a.val (b.val ^^^ c.val)
        = galois_mul a.val b.val ^^^ galois_mul a.val c.val :=
  ⟨galois_mul_comm_bytes a.val b.val a.isLt b.isLt, galois_mul_distrib a.val b.val c.val⟩

/-- C10: the block decryption pipeline inverts the block encryption
pipeline on every byte-valued 4x4 state, for every schedule built by
`KeySchedule::new` from an accepted byte-valued key, independently of
the CBC layer. -/
theorem aes_block_roundtrip (key : List Nat) (ks : KeySchedule) (s : Mat)
    (hok : KeySchedule.new key = .ok ks) (hb : ∀ x ∈ key, x < 256) (hs : MatLt s) :
    AesOps.decrypt (AesOps.encrypt s ks) ks = s := by
  by_cases hlen : key.length = 16
  · obtain ⟨ks2, hok2, _, hw⟩ := keySchedule_new_ok key hlen hb
    rw [hok] at hok2
    injection hok2 with hk
    subst hk
    exact aes_block_inverse ks (keysLt_of_wordsLt ks hw) s hs
  · rw [keySchedule_new_reject key hlen] at hok
    exact absurd hok (by simp)

/-- C10, witness: the block round-trip evaluated on the repository
test state and key schedule. -/
theorem aes_block_roundtrip_witness :
    KeySchedule.new key0 = .ok ks0 ∧ (∀ x ∈ key0, x < 256) ∧ MatLt (gen_matrix input0) ∧
      AesOps.decrypt (AesOps.encrypt (gen_matrix input0) ks0) ks0 = gen_matrix input0 :=
  ⟨by decide, by decide, by decide,
    aes_block_roundtrip key0 ks0 (gen_matrix input0) (by decide) (by decide) (by decide)⟩
